import Mathlib

/-!
Shallow embedding of the fat32x filesystem driver core (FAT32 and exFAT
read-only drivers): byte-level directory-entry decoding, FAT entry
classification, cluster and FAT-region addressing, directory listing,
range reads, checksums, timezone decoding, and the inode-style cache.

A block device is modelled as a total function `Nat → Nat` giving the byte
stored at each absolute offset; buffers are `List Nat` of byte values.
Machine integers are `Nat` with explicit `% 2 ^ w` where the Rust code
wraps. Strings are modelled as lists of code units; timestamps other than
the timezone decoding are not needed by any stated property and are left
out of the records.
-/

/-- Two to the 32, the wrap modulus of Rust u32 arithmetic in release builds. -/
def pow32 : Nat := 4294967296

/-- Wrap to 32 bits, the behaviour of overflowing u32 arithmetic. -/
def wrap32 (x : Nat) : Nat := x % pow32

/-- Little-endian 16-bit value from two bytes. -/
def le16 (b0 b1 : Nat) : Nat := b0 + 256 * b1

/-- Little-endian 32-bit value from four bytes. -/
def le32 (b0 b1 b2 b3 : Nat) : Nat := b0 + 256 * b1 + 65536 * b2 + 16777216 * b3

/-- Byte at index `i` of a buffer, 0 past the end (reads in the source
either panic or error out there; every property below stays in range). -/
def byteAt (buf : List Nat) (i : Nat) : Nat := buf.getD i 0

/-- Helper for `chunks32`, structurally recursive on a step budget that
dominates the number of chunks. -/
def chunks32Aux : Nat → List Nat → List (List Nat)
  | 0, _ => []
  | _, [] => []
  | fuel + 1, a :: l => (a :: l).take 32 :: chunks32Aux fuel ((a :: l).drop 32)

/-- Split a byte buffer into consecutive 32-byte records, as
`clus.chunks(32)` does over a cluster buffer. -/
def chunks32 (l : List Nat) : List (List Nat) :=
  chunks32Aux l.length l

/-! ## FAT32 on-disk structures (src/spec/fat32.rs, src/fat32/spec.rs) -/

/-- FAT32 FAT entry classification (enum `FatEnt` of src/spec/fat32.rs). -/
inductive FatEnt where
  | Eoc : FatEnt
  | Bad : FatEnt
  | Unused : FatEnt
  | Reserved : FatEnt
  | Next : Nat → FatEnt
deriving DecidableEq, Repr

/-- `FatEnt::new` over the 4 little-endian bytes of a FAT slot.  The top
nibble of byte 3 (`buf_3` in the source) is masked off before any
comparison and before entering the `Next` value. -/
def FatEnt.new (b0 b1 b2 b3 : Nat) : FatEnt :=
  if b3 % 16 = 0 ∧ b2 = 0 ∧ b1 = 0 ∧ b0 = 0 then FatEnt.Unused
  else if b3 % 16 = 0 ∧ b2 = 0 ∧ b1 = 0 ∧ b0 = 1 then FatEnt.Reserved
  else if b3 % 16 = 15 ∧ b2 = 255 ∧ b1 = 255 ∧ 248 ≤ b0 then FatEnt.Eoc
  else if b3 % 16 = 15 ∧ b2 = 255 ∧ b1 = 255 ∧ b0 = 247 then FatEnt.Bad
  else FatEnt.Next (le32 b0 b1 b2 (b3 % 16))

/-- FAT32 short-name directory entry (`DirEntSfn`), with the on-disk
position (`clus_no`, 32-byte-unit `off`) recorded at decode time.
Timestamp fields are carried as raw words. -/
structure DirEntSfn where
  name : List Nat
  attr : Nat
  nt_res : Nat
  crt_time_tenth : Nat
  crt_time : Nat
  crt_date : Nat
  lst_acc_date : Nat
  fst_clus_hi : Nat
  wrt_time : Nat
  wrt_date : Nat
  fst_clus_lo : Nat
  file_size : Nat
  clus_no : Nat
  off : Nat
deriving DecidableEq, Repr

/-- FAT32 long-name fragment entry (`DirEntLfn`); the three name spans are
kept as UTF-16 code-unit lists. -/
structure DirEntLfn where
  ord : Nat
  name1 : List Nat
  attr : Nat
  typ : Nat
  chksum : Nat
  name2 : List Nat
  fst_clus_lo : Nat
  name3 : List Nat
deriving DecidableEq, Repr

/-- A decoded 32-byte FAT32 directory record (`DirEnt`). -/
inductive DirEnt where
  | Sfn : DirEntSfn → DirEnt
  | Lfn : DirEntLfn → DirEnt
deriving DecidableEq, Repr

def ATTR_READ_ONLY : Nat := 1
def ATTR_HIDDEN : Nat := 2
def ATTR_SYSTEM : Nat := 4
def ATTR_VOLUME_ID : Nat := 8
def ATTR_DIRECTORY : Nat := 16
def ATTR_ARCHIVE : Nat := 32
def ATTR_LONG_FILE_NAME : Nat := 15

/-- Read `len` UTF-16LE code units starting at byte offset `off` of a
record buffer (`Utf16Field` loads). -/
def utf16At (buf : List Nat) (off len : Nat) : List Nat :=
  (List.range len).map (fun i => le16 (byteAt buf (off + 2 * i)) (byteAt buf (off + 2 * i + 1)))

/-- `DirEnt::new`: classify a 32-byte record by the attribute byte at
offset 11 and decode its fields at their fixed little-endian offsets. -/
def DirEnt.new (buf : List Nat) (clus_no offset : Nat) : DirEnt :=
  if byteAt buf 11 = ATTR_LONG_FILE_NAME then
    DirEnt.Lfn
      { ord := byteAt buf 0
        name1 := utf16At buf 1 5
        attr := byteAt buf 11
        typ := byteAt buf 12
        chksum := byteAt buf 13
        name2 := utf16At buf 14 6
        fst_clus_lo := le16 (byteAt buf 26) (byteAt buf 27)
        name3 := utf16At buf 28 2 }
  else
    DirEnt.Sfn
      { name := (List.range 11).map (byteAt buf)
        attr := byteAt buf 11
        nt_res := byteAt buf 12
        crt_time_tenth := byteAt buf 13
        crt_time := le16 (byteAt buf 14) (byteAt buf 15)
        crt_date := le16 (byteAt buf 16) (byteAt buf 17)
        lst_acc_date := le16 (byteAt buf 18) (byteAt buf 19)
        fst_clus_hi := le16 (byteAt buf 20) (byteAt buf 21)
        wrt_time := le16 (byteAt buf 22) (byteAt buf 23)
        wrt_date := le16 (byteAt buf 24) (byteAt buf 25)
        fst_clus_lo := le16 (byteAt buf 26) (byteAt buf 27)
        file_size := le32 (byteAt buf 28) (byteAt buf 29) (byteAt buf 30) (byteAt buf 31)
        clus_no := clus_no
        off := offset }

/-- `DirEntSfn::create_chksum`: 8-bit rotate-right-add over the 11 name
bytes, written exactly as the source folds it
(`name[i].wrapping_add(sum >> 1).wrapping_add(sum << 7)` on u8). -/
def DirEntSfn.create_chksum (e : DirEntSfn) : Nat :=
  e.name.foldl (fun sum b => (b + sum / 2 + sum * 128 % 256) % 256) 0

def DirEntSfn.is_end (e : DirEntSfn) : Bool := byteAt e.name 0 = 0

def DirEntSfn.is_unused (e : DirEntSfn) : Bool := byteAt e.name 0 = 229 || e.is_end

def DirEntSfn.is_rdonly (e : DirEntSfn) : Bool := e.attr &&& ATTR_READ_ONLY ≠ 0

def DirEntSfn.is_hidden (e : DirEntSfn) : Bool := e.attr &&& ATTR_HIDDEN ≠ 0

def DirEntSfn.is_system (e : DirEntSfn) : Bool := e.attr &&& ATTR_SYSTEM ≠ 0

def DirEntSfn.is_volumeid (e : DirEntSfn) : Bool := e.attr &&& ATTR_VOLUME_ID ≠ 0

def DirEntSfn.is_dir (e : DirEntSfn) : Bool := e.attr &&& ATTR_DIRECTORY ≠ 0

def DirEntSfn.fst_clus (e : DirEntSfn) : Nat := (e.fst_clus_hi <<< 16) ||| e.fst_clus_lo

/-- Lowercasing of one character as Rust `char::to_lowercase` acts on the
Latin-1 range that `u8 as char` can produce. -/
def latin1Lower (c : Nat) : Nat :=
  if 65 ≤ c ∧ c ≤ 90 then c + 32
  else if 192 ≤ c ∧ c ≤ 222 ∧ c ≠ 215 then c + 32
  else c

/-- `DirEntSfn::name`: 0x05 initial-byte substitution, base trimmed at the
first space, extension stripped of all spaces, dot join, and lowercasing
when the NT `BODY_LOW_CASE` (0x08) flag is set.  The result is the list of
characters of the produced string. -/
def DirEntSfn.sfnName (e : DirEntSfn) : List Nat :=
  let name := match e.name with
    | [] => []
    | c :: rest => (if c = 5 then 229 else c) :: rest
  let base := (name.take 8).takeWhile (fun c => c ≠ 32)
  let ext := (name.drop 8).filter (fun c => c ≠ 32)
  let res := if ext.isEmpty then base else base ++ [46] ++ ext
  if e.nt_res &&& 8 ≠ 0 then res.map latin1Lower else res

/-- `DirEntLfn::name`: the 5+6+2 UTF-16 code units of a fragment,
truncated at the first 0x0000 terminator. -/
def DirEntLfn.lfnName (e : DirEntLfn) : List Nat :=
  (e.name1 ++ e.name2 ++ e.name3).takeWhile (fun c => c ≠ 0)

def DirEntLfn.is_last (e : DirEntLfn) : Bool := e.ord &&& 64 ≠ 0

def DirEntLfn.ordno (e : DirEntLfn) : Nat := e.ord &&& 63

/-! ## FAT32 file-info reduction (src/fat32/fio.rs) -/

/-- The FAT32 `Finfo` record of src/fat32/fio.rs (timestamps omitted; the
name is a list of code units). -/
structure Finfo where
  id : Nat
  name : List Nat
  is_rdonly : Bool
  is_hidden : Bool
  is_system : Bool
  is_dir : Bool
  size : Nat
  fst_clus : Nat
deriving DecidableEq, Repr

/-- The checksum-and-name-building loop of `Finfo::try_from`: walk the
fragments in disk order, stop at the first checksum mismatch, otherwise
prepend each fragment text (`longname.insert_str(0, ..)`) to the
accumulated string. -/
def lfnBuildName : List DirEntLfn → Nat → List Nat → Option (List Nat)
  | [], _, s => some s
  | en :: rest, chksum, s =>
    if en.chksum = chksum then lfnBuildName rest chksum (en.lfnName ++ s) else none

/-- The ordinal check of `Finfo::try_from`: a `try_fold` from
`lfns.length + 1` requiring each fragment ordinal to be the accumulator
minus one, short-circuiting at the first mismatch. -/
def lfnOrdFold : List DirEntLfn → Nat → Option Nat
  | [], acc => some acc
  | en :: rest, acc => if acc - 1 = en.ordno then lfnOrdFold rest (acc - 1) else none

/-- The labelled check block of `Finfo::try_from`: first fragment must
carry the last-in-sequence flag, all checksums must match, ordinals must
descend; yields the built long name. -/
def lfnCheckBlock (lfns : List DirEntLfn) (chksum : Nat) : Option (List Nat) :=
  match lfns.head? with
  | none => none
  | some first =>
    if ¬ first.is_last then none
    else
      match lfnBuildName lfns chksum [] with
      | none => none
      | some longname =>
        if (lfnOrdFold lfns (lfns.length + 1)).isSome then some longname else none

/-- Extract the long-name fragments of the popped entry list; in the
source every remaining element is an LFN (anything else is unreachable
from `read_dirents` and panics). -/
def asLfns (ents : List DirEnt) : Option (List DirEntLfn) :=
  ents.foldr
    (fun e acc =>
      match e, acc with
      | DirEnt.Lfn l, some ls => some (l :: ls)
      | _, _ => none)
    (some [])

/-- `Finfo::try_from(Vec<DirEnt>)` for FAT32: pop the short-name entry,
reject unused and volume-id entries, then take the long name when the
fragment group (nonempty, at most 20) passes the check block, otherwise
the 8.3-derived name.  The id packs the popped entry position as
`(off << 32) | clus_no`. -/
def finfoTryFrom (ents : List DirEnt) : Option Finfo :=
  match ents.getLast? with
  | some (DirEnt.Sfn sfn) =>
    if sfn.is_unused || sfn.is_volumeid then none
    else
      match asLfns ents.dropLast with
      | none => none
      | some lfns =>
        let chksum := sfn.create_chksum
        let name :=
          if ¬ lfns.isEmpty ∧ lfns.length ≤ 20 then
            match lfnCheckBlock lfns chksum with
            | some longname => longname
            | none => sfn.sfnName
          else sfn.sfnName
        some
          { id := (sfn.off <<< 32) ||| sfn.clus_no
            name := name
            is_rdonly := sfn.is_rdonly
            is_hidden := sfn.is_hidden
            is_system := sfn.is_system
            is_dir := sfn.is_dir
            size := sfn.file_size
            fst_clus := sfn.fst_clus }
  | _ => none

/-! ## FAT32 I/O layers (src/fat32/fio.rs) -/

/-- `SecIo`: sector-granular reader; `base` and `skip` are sector counts
added to every requested sector number, `SEC_SZ = 512`. -/
structure SecIo where
  base : Nat
  skip : Nat
deriving DecidableEq, Repr

/-- `SecIo::read`: the 512 bytes of absolute sector `base + skip + sec_no`. -/
def SecIo.read (s : SecIo) (dev : Nat → Nat) (sec_no : Nat) : List Nat :=
  (List.range 512).map (fun i => dev ((s.base + s.skip + sec_no) * 512 + i))

/-- `ClusIo`: cluster-granular reader; `start` is a byte offset, `skip` a
cluster count, `clus_sz` the cluster size in bytes. -/
structure ClusIo where
  start : Nat
  skip : Nat
  clus_sz : Nat
deriving DecidableEq, Repr

/-- `ClusIo::read`: `clus_sz` bytes at
`start + (skip + clus_no - 2) * clus_sz`, where `skip + clus_no - 2` is
u32 arithmetic and therefore wraps below 2 (release builds; debug builds
panic on the underflow). -/
def ClusIo.read (c : ClusIo) (clus_no : Nat) (dev : Nat → Nat) : List Nat :=
  (List.range c.clus_sz).map
    (fun i => dev (c.start + (wrap32 (wrap32 (c.skip + clus_no) + pow32 - 2)) * c.clus_sz + i))

/-- `Fat`: FAT-region reader built from a `SecIo` plus the number of
4-byte entries per 512-byte sector. -/
structure Fat where
  sec_io : SecIo
  entries_per_sec : Nat
deriving DecidableEq, Repr

/-- `Fat::read_one`: read sector `no / entries_per_sec` through the
`SecIo` and classify the 4 bytes at in-sector offset
`4 * (no % entries_per_sec)`. -/
def Fat.read_one (f : Fat) (no : Nat) (dev : Nat → Nat) : FatEnt :=
  let sec := f.sec_io.read dev (no / f.entries_per_sec)
  let off := 4 * (no % f.entries_per_sec)
  FatEnt.new (byteAt sec off) (byteAt sec (off + 1)) (byteAt sec (off + 2)) (byteAt sec (off + 3))

/-- The FAT32 boot-sector fields consumed by `Fio::new`
(src/spec/fat32.rs `BootSec`). -/
structure BootSec where
  bpb_byts_per_sec : Nat
  bpb_sec_per_clus : Nat
  bpb_rsvd_sec_cnt : Nat
  bpb_num_fats : Nat
  bpb_tot_sec_32 : Nat
  bpb_fat_sz_32 : Nat
  bpb_root_clus : Nat
deriving DecidableEq, Repr

def BootSec.fat_start_sector (b : BootSec) : Nat := b.bpb_rsvd_sec_cnt

def BootSec.fat_sectors (b : BootSec) : Nat := b.bpb_fat_sz_32 * b.bpb_num_fats

def BootSec.data_start_sector (b : BootSec) : Nat := b.fat_start_sector + b.fat_sectors

def BootSec.cluster_size (b : BootSec) : Nat := b.bpb_byts_per_sec * b.bpb_sec_per_clus

/-- The `Fat` configured by `Fio::new`: sector base `fat_start_sector()`,
skip `bpb_fat_sz_32`, entry count `bpb_byts_per_sec / 4` per sector. -/
def fioFat (b : BootSec) : Fat :=
  { sec_io := { base := b.fat_start_sector, skip := b.bpb_fat_sz_32 }
    entries_per_sec := b.bpb_byts_per_sec / 4 }

/-- The `ClusIo` configured by `Fio::new`: byte start at the data region,
no cluster skip, cluster size from the boot sector. -/
def fioClusIo (b : BootSec) : ClusIo :=
  { start := b.data_start_sector * b.bpb_byts_per_sec
    skip := 0
    clus_sz := b.cluster_size }

/-! ## FAT32 directory walking and range read (src/fat32/fio.rs) -/

/-- The inner record loop of `Fio::read_dirents` over the 32-byte chunks
of one cluster: LFN records accumulate, a short-name record either ends
the cluster scan (`is_end`: clear and break) or commits the pending group
through `Finfo::try_from`.  State is `(res, ents)`; the pending `ents`
list survives a cluster boundary, the `break` does not cross it. -/
def processChunks : List (List Nat) → Nat → Nat → List Finfo → List DirEnt →
    (List Finfo × List DirEnt)
  | [], _, _, res, ents => (res, ents)
  | buf :: rest, clus_no, off, res, ents =>
    match DirEnt.new buf clus_no off with
    | DirEnt.Lfn l => processChunks rest clus_no (off + 1) res (ents ++ [DirEnt.Lfn l])
    | DirEnt.Sfn en =>
      if en.is_end then (res, [])
      else
        processChunks rest clus_no (off + 1)
          (match finfoTryFrom (ents ++ [DirEnt.Sfn en]) with
           | some f => res ++ [f]
           | none => res)
          []

/-- `Fio::read_dirents` over an already-walked cluster chain: scan each
cluster of the chain in order with `processChunks`, threading the pending
entry group, and return the committed file-info records. -/
def readDirentsChain (clusRead : Nat → List Nat) (chain : List Nat) : List Finfo :=
  (chain.foldl (fun st c => processChunks (chunks32 (clusRead c)) c 0 st.1 st.2)
    (([] : List Finfo), ([] : List DirEnt))).1

/-- `Fio::readfile` over the walked chain of `fi.fst_clus`: clamp the
size, select the covered clusters by skip/take, concatenate their bytes
and slice `[offset % clus_sz ..][.. sz]`. -/
def readfile (cio : ClusIo) (dev : Nat → Nat) (chain : List Nat)
    (fsize offset size : Nat) : List Nat :=
  if offset ≥ fsize ∨ size = 0 then []
  else
    let sz := min size (fsize - offset)
    let start_clus := offset / cio.clus_sz
    let start_off := offset % cio.clus_sz
    let end_clus := (offset + sz - 1) / cio.clus_sz
    let fats := (chain.drop start_clus).take (end_clus - start_clus + 1)
    let bytes := (fats.map (fun c => cio.read c dev)).flatten
    (bytes.drop start_off).take sz

/-! ## exFAT on-disk structures (src/spec/exfat.rs) -/

/-- Little-endian 64-bit value from eight bytes of a buffer. -/
def le64At (buf : List Nat) (off : Nat) : Nat :=
  le32 (byteAt buf off) (byteAt buf (off + 1)) (byteAt buf (off + 2)) (byteAt buf (off + 3))
    + 4294967296 *
      le32 (byteAt buf (off + 4)) (byteAt buf (off + 5)) (byteAt buf (off + 6))
        (byteAt buf (off + 7))

/-- exFAT allocation-bitmap directory entry (reserved bytes omitted). -/
structure AllocBitmap where
  bitmap_flags : Nat
  first_cluster : Nat
  data_length : Nat
deriving DecidableEq, Repr

/-- exFAT upcase-table directory entry (reserved bytes omitted). -/
structure UpcaseTable where
  table_checksum : Nat
  first_cluster : Nat
  data_length : Nat
deriving DecidableEq, Repr

/-- exFAT volume-label directory entry (reserved bytes omitted). -/
structure VolumnLabel where
  chars_cnt : Nat
  volumn_label : List Nat
deriving DecidableEq, Repr

/-- exFAT file/directory primary entry (reserved bytes omitted). -/
structure FileOrDir where
  secondary_cnt : Nat
  set_checksum : Nat
  file_attributes : Nat
  create_dt : Nat
  last_mod_dt : Nat
  last_acc_dt : Nat
  create_10ms_incr : Nat
  last_mod_10ms_incr : Nat
  create_tz_off : Nat
  last_mod_tz_off : Nat
  last_acc_tz_off : Nat
deriving DecidableEq, Repr

/-- exFAT stream-extension secondary entry (reserved bytes omitted). -/
structure StreamExt where
  gen_secondary_flags : Nat
  name_length : Nat
  name_hash : Nat
  valid_data_length : Nat
  first_cluster : Nat
  data_length : Nat
deriving DecidableEq, Repr

/-- exFAT file-name secondary entry: 15 UTF-16LE code units. -/
structure FileName where
  gen_secondary_flags : Nat
  filename : List Nat
deriving DecidableEq, Repr

def FileOrDir.is_rdonly (e : FileOrDir) : Bool := e.file_attributes &&& 1 ≠ 0

def FileOrDir.is_hidden (e : FileOrDir) : Bool := e.file_attributes &&& 2 ≠ 0

def FileOrDir.is_system (e : FileOrDir) : Bool := e.file_attributes &&& 4 ≠ 0

def FileOrDir.is_dir (e : FileOrDir) : Bool := e.file_attributes &&& 16 ≠ 0

/-- A decoded exFAT 32-byte directory record (`DirEnt` of
src/spec/exfat.rs), a primary carrying its on-disk position. -/
inductive ExDirEnt where
  | AllocBitmapEnt : AllocBitmap → ExDirEnt
  | UpcaseTableEnt : UpcaseTable → ExDirEnt
  | VolumnLabelEnt : VolumnLabel → ExDirEnt
  | FileOrDirEnt : FileOrDir → Nat × Nat → ExDirEnt
  | StreamExtEnt : StreamExt → ExDirEnt
  | FileNameEnt : FileName → ExDirEnt
  | Unused : ExDirEnt
  | FinalUnused : ExDirEnt
deriving DecidableEq, Repr

/-- `DirEnt::new` for exFAT: classify by the type byte at offset 0 and
decode the fields at their fixed offsets; `none` models the error on a
short buffer or an undefined type byte (0x80..0xFF outside the known
set), which the caller turns into a panic. -/
def exfatDirEntNew (buf : List Nat) (clusno offset : Nat) : Option ExDirEnt :=
  if buf.length < 32 then none
  else
    let t := byteAt buf 0
    if t = 129 then
      some (ExDirEnt.AllocBitmapEnt
        { bitmap_flags := byteAt buf 1
          first_cluster := le32 (byteAt buf 20) (byteAt buf 21) (byteAt buf 22) (byteAt buf 23)
          data_length := le64At buf 24 })
    else if t = 130 then
      some (ExDirEnt.UpcaseTableEnt
        { table_checksum := le32 (byteAt buf 4) (byteAt buf 5) (byteAt buf 6) (byteAt buf 7)
          first_cluster := le32 (byteAt buf 20) (byteAt buf 21) (byteAt buf 22) (byteAt buf 23)
          data_length := le64At buf 24 })
    else if t = 131 then
      some (ExDirEnt.VolumnLabelEnt
        { chars_cnt := byteAt buf 1
          volumn_label := utf16At buf 2 11 })
    else if t = 133 then
      some (ExDirEnt.FileOrDirEnt
        { secondary_cnt := byteAt buf 1
          set_checksum := le16 (byteAt buf 2) (byteAt buf 3)
          file_attributes := le16 (byteAt buf 4) (byteAt buf 5)
          create_dt := le32 (byteAt buf 8) (byteAt buf 9) (byteAt buf 10) (byteAt buf 11)
          last_mod_dt := le32 (byteAt buf 12) (byteAt buf 13) (byteAt buf 14) (byteAt buf 15)
          last_acc_dt := le32 (byteAt buf 16) (byteAt buf 17) (byteAt buf 18) (byteAt buf 19)
          create_10ms_incr := byteAt buf 20
          last_mod_10ms_incr := byteAt buf 21
          create_tz_off := byteAt buf 22
          last_mod_tz_off := byteAt buf 23
          last_acc_tz_off := byteAt buf 24 } (clusno, offset))
    else if t = 192 then
      some (ExDirEnt.StreamExtEnt
        { gen_secondary_flags := byteAt buf 1
          name_length := byteAt buf 3
          name_hash := le16 (byteAt buf 4) (byteAt buf 5)
          valid_data_length := le64At buf 8
          first_cluster := le32 (byteAt buf 20) (byteAt buf 21) (byteAt buf 22) (byteAt buf 23)
          data_length := le64At buf 24 })
    else if t = 193 then
      some (ExDirEnt.FileNameEnt
        { gen_secondary_flags := byteAt buf 1
          filename := utf16At buf 2 15 })
    else if 1 ≤ t ∧ t ≤ 127 then some ExDirEnt.Unused
    else if t = 0 then some ExDirEnt.FinalUnused
    else none

/-- The `From<&FileName> for String` conversion: the 15 code units of a
fragment truncated at the first 0x0000. -/
def FileName.fragName (e : FileName) : List Nat := e.filename.takeWhile (fun c => c ≠ 0)

/-- `EntrySet`: the three record kinds that participate in a file entry
set, a primary carrying its on-disk `(clus_no, offset)`. -/
inductive EntrySet where
  | FileOrDirSet : FileOrDir → Nat × Nat → EntrySet
  | StreamExtSet : StreamExt → EntrySet
  | FileNameSet : FileName → EntrySet
deriving DecidableEq, Repr

def EntrySet.is_primary : EntrySet → Bool
  | EntrySet.FileOrDirSet _ _ => true
  | _ => false

/-- `From<DirEnt> for Option<EntrySet>`. -/
def entrySetOf : ExDirEnt → Option EntrySet
  | ExDirEnt.FileOrDirEnt e pos => some (EntrySet.FileOrDirSet e pos)
  | ExDirEnt.StreamExtEnt e => some (EntrySet.StreamExtSet e)
  | ExDirEnt.FileNameEnt e => some (EntrySet.FileNameSet e)
  | _ => none

/-! ## exFAT file-info reduction and directory walking (src/fio/exfat.rs) -/

/-- The shared `Finfo` of src/fio.rs consumed by the exFAT back-end
(timestamps omitted). -/
structure FioFinfo where
  id : Nat
  name : List Nat
  is_rdonly : Bool
  is_hidden : Bool
  is_system : Bool
  is_dir : Bool
  size32 : Nat
  size : Nat
  fst_clus : Nat
deriving DecidableEq, Repr

/-- The loop over `ents[2..]` of the exFAT `Finfo::try_from`: every tail
entry must be a `FileName`, whose fragments concatenate left to right. -/
def exfatCollectName : List EntrySet → Option (List Nat)
  | [] => some []
  | EntrySet.FileNameSet fn :: rest =>
    (exfatCollectName rest).map (fun s => fn.fragName ++ s)
  | _ => none

/-- `Finfo::try_from(Vec<EntrySet>)` for exFAT: at least three entries,
a `FileOrDir` then a `StreamExt` then only `FileName` records; the id
packs the primary position as `(off << 32) | clus_no`, the size is the
stream valid data length. -/
def exfatFinfoTryFrom (ents : List EntrySet) : Option FioFinfo :=
  if ents.length < 3 then none
  else
    match ents with
    | EntrySet.FileOrDirSet ef pos :: EntrySet.StreamExtSet es :: rest =>
      match exfatCollectName rest with
      | none => none
      | some nm =>
        some
          { id := (pos.2 <<< 32) ||| pos.1
            name := nm
            is_rdonly := ef.is_rdonly
            is_hidden := ef.is_hidden
            is_system := ef.is_system
            is_dir := ef.is_dir
            size32 := 0
            size := es.valid_data_length
            fst_clus := es.first_cluster }
    | _ => none

/-- One cluster of the exFAT `read_dirents` loop: decode each 32-byte
record, skip `Unused`, stop the whole walk at `FinalUnused`
(`break 'reading`), collect everything else.  The flag reports whether
the terminator was hit inside this cluster. -/
def exfatProcessCluster : List (List Nat) → Nat → Nat → Option (List ExDirEnt × Bool)
  | [], _, _ => some ([], false)
  | buf :: rest, clusno, off =>
    match exfatDirEntNew buf clusno off with
    | none => none
    | some ExDirEnt.FinalUnused => some ([], true)
    | some ExDirEnt.Unused => exfatProcessCluster rest clusno (off + 1)
    | some e =>
      match exfatProcessCluster rest clusno (off + 1) with
      | none => none
      | some (es, t) => some (e :: es, t)

/-- `Fio::read_dirents` for exFAT over the walked chain: clusters are
scanned in order and the first `FinalUnused` ends the walk globally. -/
def exfatReadDirents (clusBytes : Nat → List Nat) : List Nat → Option (List ExDirEnt)
  | [] => some []
  | c :: rest =>
    match exfatProcessCluster (chunks32 (clusBytes c)) c 0 with
    | none => none
    | some (es, true) => some es
    | some (es, false) => (exfatReadDirents clusBytes rest).map (fun more => es ++ more)

/-- The reducer loop of `Fio::list_dir`: feed the set-relevant records
into a pending accumulator, flushing it through `Finfo::try_from` each
time a new primary arrives.  The accumulator still pending when the
record list ends is dropped, exactly as in the source. -/
def exfatListDirLoop : List ExDirEnt → List FioFinfo → List EntrySet → List FioFinfo
  | [], ret, _ => ret
  | e :: rest, ret, pending =>
    match entrySetOf e with
    | none => exfatListDirLoop rest ret pending
    | some se =>
      if se.is_primary ∧ ¬ pending.isEmpty then
        exfatListDirLoop rest
          (match exfatFinfoTryFrom pending with
           | some fi => ret ++ [fi]
           | none => ret)
          [se]
      else exfatListDirLoop rest ret (pending ++ [se])

/-- `Fio::list_dir` over the walked chain of a directory. -/
def exfatListDir (clusBytes : Nat → List Nat) (chain : List Nat) : Option (List FioFinfo) :=
  (exfatReadDirents clusBytes chain).map (fun ents => exfatListDirLoop ents [] [])

/-- `Fio::read_file` of the exFAT back-end: the body ignores its
arguments and returns an empty buffer. -/
def exfatReadFile (_fi : FioFinfo) (_offset _size : Nat) : List Nat := []

/-! ## exFAT cluster and FAT access (src/fio/exfat.rs) -/

/-- The geometry fields of the exFAT `Fio` struct. -/
structure ExfatFio where
  root_clusno : Nat
  bitmap_clusno : Nat
  sec_sz : Nat
  secs_per_clus : Nat
  clus_heap_offset : Nat
  clus_heap_base : Nat
  clus_sz : Nat
  clus_cnt : Nat
  fat_offset : Nat
  dirents_per_sec : Nat
deriving DecidableEq, Repr

/-- `Fio::read_sec` for exFAT: `sec_sz` bytes at byte offset
`secno * sec_sz`. -/
def exfatReadSec (p : ExfatFio) (dev : Nat → Nat) (secno : Nat) : List Nat :=
  (List.range p.sec_sz).map (fun i => dev (secno * p.sec_sz + i))

/-- `Fio::read_clus` for exFAT: reject out-of-range cluster numbers with
an empty buffer, otherwise `clus_sz` bytes at
`clus_heap_base + (clusno - 2) * clus_sz`. -/
def exfatReadClus (p : ExfatFio) (dev : Nat → Nat) (clusno : Nat) : List Nat :=
  if clusno < 2 ∨ clusno > p.clus_cnt + 1 then []
  else
    (List.range p.clus_sz).map
      (fun i => dev (p.clus_heap_base + (clusno - 2) * p.clus_sz + i))

/-- exFAT FAT entry classification (enum `FatEnt` of src/spec/exfat.rs). -/
inductive ExfatFatEnt where
  | Chain : Nat → ExfatFatEnt
  | BadCluster : ExfatFatEnt
  | EndOfChain : ExfatFatEnt
  | Reserved : ExfatFatEnt
deriving DecidableEq, Repr

/-- `Fio::read_fat` for exFAT: out-of-range cluster numbers are
`Reserved`; otherwise read sector `fat_offset + clusno / dirents_per_sec`
and classify the little-endian u32 at in-sector byte offset
`4 * (clusno % dirents_per_sec)`. -/
def exfatReadFat (p : ExfatFio) (dev : Nat → Nat) (clusno : Nat) : ExfatFatEnt :=
  if clusno < 2 ∨ clusno > p.clus_cnt + 1 then ExfatFatEnt.Reserved
  else
    let sec_no := clusno / p.dirents_per_sec
    let ent_off := clusno % p.dirents_per_sec
    let sec := exfatReadSec p dev (p.fat_offset + sec_no)
    let off := 4 * ent_off
    let ent := le32 (byteAt sec off) (byteAt sec (off + 1)) (byteAt sec (off + 2))
      (byteAt sec (off + 3))
    if ent ≤ p.clus_cnt + 1 then
      if 2 ≤ ent then ExfatFatEnt.Chain ent else ExfatFatEnt.Reserved
    else if ent = 4294967295 then ExfatFatEnt.EndOfChain
    else if ent = 4294967287 then ExfatFatEnt.BadCluster
    else ExfatFatEnt.Reserved

/-! ## Checksums (src/spec/exfat.rs, src/spec/fat32.rs) -/

/-- `entset_checksum`: 16-bit rotate-right-add over the
`(secondary_count + 1) * 32` bytes of an entry set, skipping bytes 2 and 3
of the primary, written exactly as the source folds it. -/
def entset_checksum (bytes : List Nat) (secondary_cnt : Nat) : Nat :=
  (List.range ((secondary_cnt + 1) * 32)).foldl
    (fun sum i =>
      if i = 2 ∨ i = 3 then sum
      else (sum / 2 + byteAt bytes i + (if sum % 2 ≠ 0 then 32768 else 0)) % 65536)
    0

/-- The 8-bit reference checksum of the specification:
`sum = ((sum >> 1) | (sum << 7)) + b`, wrapping 8-bit. -/
def chksumSpec8 (bytes : List Nat) : Nat :=
  bytes.foldl (fun sum b => ((sum / 2 ||| sum * 128 % 256) + b) % 256) 0

/-- The 16-bit reference checksum of the specification over the same byte
range as `entset_checksum`: `sum = ((sum >> 1) | (sum << 15)) + b`,
wrapping 16-bit, skipping bytes 2 and 3 of the primary. -/
def entsetChecksumSpec (bytes : List Nat) (secondary_cnt : Nat) : Nat :=
  (List.range ((secondary_cnt + 1) * 32)).foldl
    (fun sum i =>
      if i = 2 ∨ i = 3 then sum
      else ((sum / 2 ||| sum * 32768 % 65536) + byteAt bytes i) % 65536)
    0

/-! ## exFAT timezone decoding (FileOrDir::make_time, src/spec/exfat.rs) -/

/-- `chrono::FixedOffset::east_opt`: seconds east of UTC, defined for
magnitudes below one day. -/
def eastOpt (n : Int) : Option Int := if -86400 < n ∧ n < 86400 then some n else none

/-- `chrono::FixedOffset::west_opt`: seconds west of UTC. -/
def westOpt (n : Int) : Option Int := eastOpt (-n)

/-- The timezone computation of `FileOrDir::make_time`: high bit clear is
UTC; otherwise `val = tz_off - 0x80`, east `val` quarter hours when
`val < 0x40`, west `(val XOR 0x7F) + 1` quarter hours when `val ≥ 0x40`.
The result is the UTC offset in seconds applied to the decoded wall-clock
fields (`none` never occurs for byte inputs and would fall back to the
Unix epoch). -/
def exfatTzOffsetSecs (tz_off : Nat) : Option Int :=
  if tz_off &&& 128 ≠ 0 then
    let val := tz_off - 128
    if val < 64 then eastOpt ((val * 900 : Nat) : Int)
    else westOpt ((((val ^^^ 127) + 1) * 900 : Nat) : Int)
  else eastOpt 0

/-! ## The inode-style cache (src/fs.rs) -/

/-- Lookup in a model of `BTreeMap`: the most recent insertion wins. -/
def mlookup {α : Type} (k : Nat) : List (Nat × α) → Option α
  | [] => none
  | (k2, v) :: rest => if k = k2 then some v else mlookup k rest

/-- `BTreeMap::insert` modelled by shadowing. -/
def minsert {α : Type} (k : Nat) (v : α) (m : List (Nat × α)) : List (Nat × α) :=
  (k, v) :: m

/-- Insert every file-info of a freshly read listing into the file-info
map, keyed by id (the `rc_files.iter().for_each` loops). -/
def insertAll (l : List Finfo) (m : List (Nat × Finfo)) : List (Nat × Finfo) :=
  l.foldl (fun m f => minsert f.id f m) m

/-- The `Fs` state: directory map, file-info map and open-count map. -/
structure FsState where
  dirmap : List (Nat × List Finfo)
  fmap : List (Nat × Finfo)
  filesopen : List (Nat × Nat)
deriving Repr

/-- `Fs::new` over an abstract directory reader `rd` (the semantics of
`fio.read_dirents`): read the root listing, key it under id 1, and
populate the file-info map with its members. -/
def fsInit (rd : Nat → List Finfo) (root_clusno : Nat) : FsState :=
  { dirmap := minsert 1 (rd root_clusno) []
    fmap := insertAll (rd root_clusno) []
    filesopen := [] }

/-- `Fs::readdir`: expand an unexpanded id from the file-info entry
(`fst_clus == 0` yields an empty listing), inserting every child into the
file-info map; `none` models the panic on an id that is in neither map. -/
def fsReaddir (rd : Nat → List Finfo) (id : Nat) (s : FsState) : Option FsState :=
  match mlookup id s.dirmap with
  | some _ => some s
  | none =>
    match mlookup id s.fmap with
    | none => none
    | some di =>
      let files := if di.fst_clus ≠ 0 then rd di.fst_clus else []
      some
        { s with
          fmap := insertAll files s.fmap
          dirmap := minsert id files s.dirmap }

/-- The list returned by a successful `readdir`. -/
def fsReaddirList (id : Nat) (s : FsState) : Option (List Finfo) := mlookup id s.dirmap

/-- `Fs::getinfo`. -/
def fsGetinfo (id : Nat) (s : FsState) : Option Finfo := mlookup id s.fmap

/-- `Fs::lookup`: expand the parent then scan the listing by name. -/
def fsLookup (rd : Nat → List Finfo) (parent : Nat) (nm : List Nat) (s : FsState) :
    Option (FsState × Option Finfo) :=
  match fsReaddir rd parent s with
  | none => none
  | some s2 => some (s2, (fsReaddirList parent s2).bind (fun l => l.find? (fun f => f.name = nm)))

/-- `Fs::open`: bump the open count when the id resolves; the returned
flag reports success. -/
def fsOpen (id : Nat) (s : FsState) : FsState × Bool :=
  match fsGetinfo id s with
  | some _ =>
    ({ s with
        filesopen :=
          match mlookup id s.filesopen with
          | some cnt => minsert id (cnt + 1) s.filesopen
          | none => minsert id 1 s.filesopen },
      true)
  | none => (s, false)

/-- `Fs::close`: decrement and drop at zero; missing ids are ignored. -/
def fsClose (id : Nat) (s : FsState) : FsState :=
  match mlookup id s.filesopen with
  | none => s
  | some cnt =>
    { s with
      filesopen :=
        if cnt - 1 = 0 then (s.filesopen.filter (fun p => p.1 ≠ id))
        else minsert id (cnt - 1) s.filesopen }

/-- One external operation against the cache. -/
inductive FsOp where
  | readdirOp : Nat → FsOp
  | lookupOp : Nat → List Nat → FsOp
  | getinfoOp : Nat → FsOp
  | openOp : Nat → FsOp
  | closeOp : Nat → FsOp
  | readOp : Nat → Nat → Nat → FsOp
deriving DecidableEq, Repr

/-- The state transition of one operation; `none` is a panic. `getinfo`
and `read` do not change the state, `open` and `close` only touch the
open-count map. -/
def fsStep (rd : Nat → List Finfo) (s : FsState) : FsOp → Option FsState
  | FsOp.readdirOp id => fsReaddir rd id s
  | FsOp.lookupOp parent nm => (fsLookup rd parent nm s).map Prod.fst
  | FsOp.getinfoOp _ => some s
  | FsOp.openOp id => some (fsOpen id s).1
  | FsOp.closeOp id => some (fsClose id s)
  | FsOp.readOp _ _ _ => some s

/-- Run a sequence of operations from a freshly constructed `Fs`. -/
def fsRun (rd : Nat → List Finfo) (root_clusno : Nat) (ops : List FsOp) : Option FsState :=
  ops.foldl (fun acc op => acc.bind (fun s => fsStep rd s op)) (some (fsInit rd root_clusno))


/-! ## Specification-side formulations and concrete fixtures -/

/-- Ordinals starting at `a` and decreasing by one along the list. -/
def ordsFrom : List DirEntLfn → Nat → Bool
  | [], _ => true
  | l :: t, a => (l.ordno = a) && ordsFrom t (a - 1)

/-- The ordinal condition of the specification: ordinals descend strictly
from `count` down to 1 across the on-disk sequence. -/
def ordsDescending (lfns : List DirEntLfn) : Bool :=
  ordsFrom lfns lfns.length

/-- The four LFN validation checks of the specification: count in 1..=20,
the first fragment on disk carries the last-in-sequence flag, every
checksum matches the short-name checksum, and the ordinals descend. -/
def lfnChecksPass (lfns : List DirEntLfn) (sfn : DirEntSfn) : Bool :=
  (1 ≤ lfns.length && lfns.length ≤ 20)
    && (match lfns.head? with
        | some f => f.is_last
        | none => false)
    && lfns.all (fun l => l.chksum = sfn.create_chksum)
    && ordsDescending lfns

/-- The long name of the specification: fragment texts concatenated in
reverse disk order, ordinal 1 first. -/
def longNameOf (lfns : List DirEntLfn) : List Nat :=
  (lfns.reverse.map DirEntLfn.lfnName).flatten

/-- The full byte contents of a cluster chain, concatenated in order. -/
def chainContents (cio : ClusIo) (dev : Nat → Nat) (chain : List Nat) : List Nat :=
  (chain.map (fun c => cio.read c dev)).flatten

/-- A device holding zero everywhere. -/
def devZero : Nat → Nat := fun _ => 0

/-- A device whose single nonzero byte sits at offset 67584, the first
byte the FAT32 FAT reader of the fixture geometry actually fetches for
cluster 0. -/
def devFat : Nat → Nat := fun a => if a = 67584 then 3 else 0

/-- A device whose single nonzero byte sits at offset 12800, the first
byte the exFAT FAT reader of the fixture geometry actually fetches for
cluster 16. -/
def devEx1 : Nat → Nat := fun a => if a = 12800 then 3 else 0

/-- Fixture FAT32 boot sector: 512-byte sectors, 8 sectors per cluster,
32 reserved sectors, two FATs of 100 sectors. -/
def bsEx : BootSec :=
  { bpb_byts_per_sec := 512
    bpb_sec_per_clus := 8
    bpb_rsvd_sec_cnt := 32
    bpb_num_fats := 2
    bpb_tot_sec_32 := 600000
    bpb_fat_sz_32 := 100
    bpb_root_clus := 2 }

/-- Fixture exFAT geometry: 512-byte sectors, FAT region at sector 24,
16 32-byte records per sector. -/
def pEx : ExfatFio :=
  { root_clusno := 5
    bitmap_clusno := 2
    sec_sz := 512
    secs_per_clus := 8
    clus_heap_offset := 4096
    clus_heap_base := 2097152
    clus_sz := 4096
    clus_cnt := 100000
    fat_offset := 24
    dirents_per_sec := 16 }

/-- A 32-byte FAT32 short-name record for `HELLO.TXT`, 13 bytes long. -/
def sfnHello : List Nat :=
  [72, 69, 76, 76, 79, 32, 32, 32, 84, 88, 84, 32] ++ List.replicate 16 0 ++ [13, 0, 0, 0]

/-- A FAT32 directory content: cluster 2 starts with the end-of-directory
sentinel, cluster 3 holds one valid short-name record. -/
def exClusRead : Nat → List Nat :=
  fun c =>
    if c = 2 then List.replicate 512 0
    else if c = 3 then sfnHello ++ List.replicate 480 0
    else []

/-- A 32-byte exFAT file primary record with two secondaries. -/
def entFileOrDir : List Nat := 133 :: 2 :: List.replicate 30 0

/-- A 32-byte exFAT stream-extension record, name length 1. -/
def entStreamExt : List Nat := 192 :: 0 :: 0 :: 1 :: List.replicate 28 0

/-- A 32-byte exFAT file-name record holding the single letter a. -/
def entFileName : List Nat := 193 :: 0 :: 97 :: 0 :: List.replicate 28 0

/-- An exFAT directory content for cluster 9: one complete entry set
followed by the terminator. -/
def exfatClusBytes : Nat → List Nat :=
  fun c =>
    if c = 9 then entFileOrDir ++ entStreamExt ++ entFileName ++ List.replicate 32 0
    else []

/-- A decoded short-name entry whose on-disk position is cluster 2,
offset 3. -/
def sfnAt23 : DirEntSfn :=
  { name := [72, 69, 76, 76, 79, 32, 32, 32, 84, 88, 84]
    attr := 32
    nt_res := 0
    crt_time_tenth := 0
    crt_time := 0
    crt_date := 0
    lst_acc_date := 0
    fst_clus_hi := 0
    wrt_time := 0
    wrt_date := 0
    fst_clus_lo := 7
    file_size := 13
    clus_no := 2
    off := 3 }

/-- A decoded short-name entry for `README.MD` at cluster 2, offset 4. -/
def sfnEx : DirEntSfn :=
  { name := [82, 69, 65, 68, 77, 69, 32, 32, 77, 68, 32]
    attr := 32
    nt_res := 0
    crt_time_tenth := 0
    crt_time := 0
    crt_date := 0
    lst_acc_date := 0
    fst_clus_hi := 0
    wrt_time := 0
    wrt_date := 0
    fst_clus_lo := 5
    file_size := 9
    clus_no := 2
    off := 4 }

/-- A decoded long-name fragment matching `sfnEx`: ordinal 1 with the
last-in-sequence flag, text `Readme.md`. -/
def lfnEx : DirEntLfn :=
  { ord := 65
    name1 := [82, 101, 97, 100, 109]
    attr := 15
    typ := 0
    chksum := sfnEx.create_chksum
    name2 := [101, 46, 109, 100, 0, 65535]
    fst_clus_lo := 0
    name3 := [65535, 65535] }

/-- A shared file-info fixture of size 10 for the exFAT range read. -/
def fiEx : FioFinfo :=
  { id := 5
    name := [120]
    is_rdonly := false
    is_hidden := false
    is_system := false
    is_dir := false
    size32 := 0
    size := 10
    fst_clus := 6 }

/-- A FAT32 file-info fixture: a directory with id 9 and no data chain. -/
def fA : Finfo :=
  { id := 9
    name := [97]
    is_rdonly := false
    is_hidden := false
    is_system := false
    is_dir := true
    size := 0
    fst_clus := 0 }

/-- A directory reader fixture: cluster 7 lists `fA`, all other chains
are empty. -/
def rdEx : Nat → List Finfo := fun c => if c = 7 then [fA] else []

/-- The file-info produced by reducing `sfnAt23` alone. -/
def c1fi : Finfo :=
  { id := 12884901890
    name := [72, 69, 76, 76, 79, 46, 84, 88, 84]
    is_rdonly := false
    is_hidden := false
    is_system := false
    is_dir := false
    size := 13
    fst_clus := 7 }

/-- An exFAT primary fixture with all-zero attributes and two secondaries. -/
def exEf : FileOrDir :=
  { secondary_cnt := 2
    set_checksum := 0
    file_attributes := 0
    create_dt := 0
    last_mod_dt := 0
    last_acc_dt := 0
    create_10ms_incr := 0
    last_mod_10ms_incr := 0
    create_tz_off := 0
    last_mod_tz_off := 0
    last_acc_tz_off := 0 }

/-- An exFAT stream-extension fixture: data at cluster 6, length 10. -/
def exEs : StreamExt :=
  { gen_secondary_flags := 0
    name_length := 1
    name_hash := 0
    valid_data_length := 10
    first_cluster := 6
    data_length := 10 }

/-- An exFAT file-name fixture holding the single letter a. -/
def exFn : FileName :=
  { gen_secondary_flags := 0
    filename := 97 :: List.replicate 14 0 }

/-- The file-info produced by reducing the exFAT fixtures at position
cluster 2, offset 3. -/
def exFi : FioFinfo :=
  { id := 12884901890
    name := [97]
    is_rdonly := false
    is_hidden := false
    is_system := false
    is_dir := false
    size32 := 0
    size := 10
    fst_clus := 6 }

/-- The listing a directory head produces: `first_cluster == 0` is an
empty directory, anything else is read through the directory reader. -/
def listingOf (rd : Nat → List Finfo) (c : Nat) : List Finfo :=
  if c = 0 then [] else rd c

/-- The cache invariants of the specification: every key of the
directory map is the root id 1 or a key of the file-info map; every
cached listing is the listing of some directory head; and every member of
a cached listing is found in the file-info map as the same record. -/
def FsInv (rd : Nat → List Finfo) (s : FsState) : Prop :=
  (∀ id, (mlookup id s.dirmap).isSome → id = 1 ∨ (mlookup id s.fmap).isSome) ∧
  (∀ id l, mlookup id s.dirmap = some l → ∃ c, l = listingOf rd c) ∧
  (∀ id l, mlookup id s.dirmap = some l → ∀ f ∈ l, mlookup f.id s.fmap = some f)

/-! ## General bitwise lemmas -/

theorem lor_shiftLeft_add : ∀ (n a b : Nat), b < 2 ^ n →
    (a <<< n) ||| b = a * 2 ^ n + b := by
  intro n
  induction n with
  | zero =>
    intro a b hb
    interval_cases b
    simp [Nat.shiftLeft_eq]
  | succ n ih =>
    intro a b hb
    have hb2 : b / 2 < 2 ^ n := by
      rw [Nat.div_lt_iff_lt_mul (by norm_num)]
      calc b < 2 ^ (n + 1) := hb
        _ = 2 ^ n * 2 := by rw [Nat.pow_succ]
    have e1 : a <<< (n + 1) = Nat.bit false (a <<< n) := by
      rw [Nat.bit_val]
      simp only [Bool.toNat_false, Nat.add_zero, Nat.shiftLeft_eq, Nat.pow_succ]
      ring
    have e2 : b = Nat.bit (decide (b % 2 = 1)) (b / 2) := by
      rw [Nat.bit_val]
      rcases Nat.mod_two_eq_zero_or_one b with h | h <;> simp [h] <;> omega
    have e3 : (false || decide (b % 2 = 1)).toNat = b % 2 := by
      rcases Nat.mod_two_eq_zero_or_one b with h | h <;> simp [h]
    rw [e1]
    conv_lhs => rw [e2]
    rw [Nat.lor_bit, Nat.bit_val, ih a (b / 2) hb2, e3]
    have e4 : 2 * (a * 2 ^ n + b / 2) + b % 2
        = 2 * (a * 2 ^ n) + (2 * (b / 2) + b % 2) := by ring
    rw [e4, Nat.div_add_mod, Nat.pow_succ]
    ring

theorem lor_shiftLeft32_add (a b : Nat) (hb : b < pow32) :
    (a <<< 32) ||| b = a * pow32 + b := by
  have h32 : (2 : Nat) ^ 32 = pow32 := by norm_num [pow32]
  have h := lor_shiftLeft_add 32 a b (h32 ▸ hb)
  rw [h32] at h
  exact h

/-! ## Checksum refinement -/

theorem rotStep8 (s b : Nat) (hs : s < 256) :
    (b + s / 2 + s * 128 % 256) % 256 = ((s / 2 ||| s * 128 % 256) + b) % 256 := by
  have h1 : s * 128 % 256 = s % 2 * 128 := by omega
  have h2 : s / 2 ||| s % 2 * 128 = s % 2 * 128 + s / 2 := by
    calc s / 2 ||| s % 2 * 128 = s % 2 * 128 ||| s / 2 := Nat.lor_comm _ _
      _ = (s % 2) <<< 7 ||| s / 2 := by rw [Nat.shiftLeft_eq]
      _ = s % 2 * 2 ^ 7 + s / 2 := lor_shiftLeft_add 7 _ _ (by omega)
      _ = s % 2 * 128 + s / 2 := by norm_num
  rw [h1, h2]
  omega

theorem chksumFold8 : ∀ (bytes : List Nat) (s : Nat), s < 256 →
    bytes.foldl (fun sum b => (b + sum / 2 + sum * 128 % 256) % 256) s
      = bytes.foldl (fun sum b => ((sum / 2 ||| sum * 128 % 256) + b) % 256) s := by
  intro bytes
  induction bytes with
  | nil => intro s _; rfl
  | cons b t ih =>
    intro s hs
    simp only [List.foldl_cons]
    rw [rotStep8 s b hs]
    exact ih _ (by omega)

theorem rotStep16 (s b : Nat) (hs : s < 65536) :
    (s / 2 + b + (if s % 2 ≠ 0 then 32768 else 0)) % 65536
      = ((s / 2 ||| s * 32768 % 65536) + b) % 65536 := by
  have h1 : s * 32768 % 65536 = s % 2 * 32768 := by omega
  have h0 : (if s % 2 ≠ 0 then 32768 else 0) = s % 2 * 32768 := by
    rcases Nat.mod_two_eq_zero_or_one s with h | h <;> simp [h]
  have h2 : s / 2 ||| s % 2 * 32768 = s % 2 * 32768 + s / 2 := by
    calc s / 2 ||| s % 2 * 32768 = s % 2 * 32768 ||| s / 2 := Nat.lor_comm _ _
      _ = (s % 2) <<< 15 ||| s / 2 := by rw [Nat.shiftLeft_eq]
      _ = s % 2 * 2 ^ 15 + s / 2 := lor_shiftLeft_add 15 _ _ (by omega)
      _ = s % 2 * 32768 + s / 2 := by norm_num
  rw [h0, h1, h2]
  omega

theorem chksumFold16 (bytes : List Nat) : ∀ (idxs : List Nat) (s : Nat), s < 65536 →
    idxs.foldl
      (fun sum i =>
        if i = 2 ∨ i = 3 then sum
        else (sum / 2 + byteAt bytes i + (if sum % 2 ≠ 0 then 32768 else 0)) % 65536) s
      = idxs.foldl
        (fun sum i =>
          if i = 2 ∨ i = 3 then sum
          else ((sum / 2 ||| sum * 32768 % 65536) + byteAt bytes i) % 65536) s := by
  intro idxs
  induction idxs with
  | nil => intro s _; rfl
  | cons i t ih =>
    intro s hs
    simp only [List.foldl_cons]
    by_cases hi : i = 2 ∨ i = 3
    · simp only [hi, if_pos]
      exact ih s hs
    · simp only [hi, if_neg, not_false_iff]
      rw [rotStep16 s (byteAt bytes i) hs]
      exact ih _ (by omega)

/-- C8: the FAT32 `DirEntSfn::create_chksum` agrees with the 8-bit
rotate-right-by-one-then-add reference `sum := ((sum >> 1) | (sum << 7)) +
name[i]` (wrapping 8-bit, from 0) on every short name, and the exFAT
`entset_checksum` agrees with the analogous 16-bit reference
`sum := ((sum >> 1) | (sum << 15)) + byte` over all bytes of the entry set
except bytes 2..3 of the primary. -/
theorem c8_checksum_refinement :
    (∀ e : DirEntSfn, e.create_chksum = chksumSpec8 e.name) ∧
    (∀ (bytes : List Nat) (cnt : Nat), entset_checksum bytes cnt = entsetChecksumSpec bytes cnt) := by
  constructor
  · intro e
    exact chksumFold8 e.name 0 (by norm_num)
  · intro bytes cnt
    exact chksumFold16 bytes (List.range ((cnt + 1) * 32)) 0 (by norm_num)

/-! ## C9: exFAT timezone decoding -/

/-- C9 counterexample: the timezone byte 0xC4 has the high bit set and
low seven bits 0x44 ≥ 0x40, yet the decoded UTC offset is −60 quarter
hours (−54000 s), not the −((0xC4 XOR 0x7F) + 1) = −188 quarter hours the
claim computes on the full byte. -/
theorem c9_tz_counterexample :
    (196 : Nat) &&& 128 ≠ 0 ∧ 64 ≤ (196 : Nat) % 128 ∧
    exfatTzOffsetSecs 196 ≠ some (-((((196 ^^^ 127) + 1) * 900 : Nat) : Int)) := by
  refine ⟨by decide, by decide, by decide⟩

/-- C9 (amended): `make_time` interprets a timezone byte with clear high
bit as UTC; with the high bit set and low seven bits below 0x40 as
east offset (low 7 bits) quarter hours; and with low seven bits at or
above 0x40 as west offset ((low 7 bits XOR 0x7F) + 1) quarter hours,
that is an offset of −(((tz mod 128) XOR 0x7F) + 1) * 15 minutes. -/
theorem c9_tz_decoding (tz : Nat) (htz : tz < 256) :
    (tz &&& 128 = 0 → exfatTzOffsetSecs tz = some 0) ∧
    (tz &&& 128 ≠ 0 → tz % 128 < 64 →
      exfatTzOffsetSecs tz = some (((tz % 128) * 900 : Nat) : Int)) ∧
    (tz &&& 128 ≠ 0 → 64 ≤ tz % 128 →
      exfatTzOffsetSecs tz = some (-(((((tz % 128) ^^^ 127) + 1) * 900 : Nat) : Int))) := by
  interval_cases tz <;> exact ⟨by decide, by decide, by decide⟩

/-- C9 witness: the amended theorem at the bytes 0x20 (UTC), 0x8C
(+12 quarter hours) and 0xC4 (−60 quarter hours). -/
theorem c9_tz_decoding_witness :
    exfatTzOffsetSecs 32 = some 0 ∧
    exfatTzOffsetSecs 140 = some (((140 % 128) * 900 : Nat) : Int) ∧
    exfatTzOffsetSecs 196 = some (-(((((196 % 128) ^^^ 127) + 1) * 900 : Nat) : Int)) :=
  ⟨(c9_tz_decoding 32 (by decide)).1 (by decide),
   (c9_tz_decoding 140 (by decide)).2.1 (by decide) (by decide),
   (c9_tz_decoding 196 (by decide)).2.2 (by decide) (by decide)⟩

/-! ## C5: cluster read range handling -/

/-- C5 counterexample: the FAT32 `ClusIo::read` has no range guard; at
cluster 0 it still produces a full `clus_sz` buffer (from a wrapped
offset) instead of the empty buffer the claim requires. -/
theorem c5_clusio_counterexample :
    ClusIo.read (fioClusIo bsEx) 0 devZero ≠ [] := by
  intro h
  have hlen := congrArg List.length h
  simp [ClusIo.read, fioClusIo, bsEx, BootSec.cluster_size] at hlen

/-- C5 (amended): the exFAT `read_clus` rejects out-of-range cluster
numbers with an empty buffer and reads `clus_sz` bytes from
`clus_heap_base + (clusno − 2) * clus_sz` in range; the FAT32
`ClusIo::read` performs no range check, and for in-range clusters (with
the zero skip configured by `Fio::new`) reads from
`start + (clusno − 2) * clus_sz`. -/
theorem c5_cluster_read (p : ExfatFio) (cio : ClusIo) (dev : Nat → Nat) (c : Nat) :
    ((c < 2 ∨ c > p.clus_cnt + 1) → exfatReadClus p dev c = []) ∧
    (2 ≤ c → c ≤ p.clus_cnt + 1 →
      exfatReadClus p dev c
        = (List.range p.clus_sz).map (fun i => dev (p.clus_heap_base + (c - 2) * p.clus_sz + i))) ∧
    (cio.skip = 0 → 2 ≤ c → c < pow32 →
      ClusIo.read cio c dev
        = (List.range cio.clus_sz).map (fun i => dev (cio.start + (c - 2) * cio.clus_sz + i))) := by
  refine ⟨?_, ?_, ?_⟩
  · intro h
    simp [exfatReadClus, h]
  · intro h2 h3
    have h : ¬ (c < 2 ∨ c > p.clus_cnt + 1) := by omega
    simp [exfatReadClus, h]
  · intro hskip h2 h3
    have hw : wrap32 (wrap32 (cio.skip + c) + pow32 - 2) = c - 2 := by
      rw [hskip]
      unfold pow32 at h3
      unfold wrap32 pow32
      omega
    simp [ClusIo.read, hw]

/-- C5 witness: the amended theorem at cluster 0 (rejected) and cluster 2
(read from the heap base) of the fixture geometries. -/
theorem c5_cluster_read_witness :
    exfatReadClus pEx devZero 0 = [] ∧
    exfatReadClus pEx devZero 2
      = (List.range pEx.clus_sz).map
        (fun i => devZero (pEx.clus_heap_base + (2 - 2) * pEx.clus_sz + i)) ∧
    ClusIo.read (fioClusIo bsEx) 2 devZero
      = (List.range (fioClusIo bsEx).clus_sz).map
        (fun i => devZero ((fioClusIo bsEx).start + (2 - 2) * (fioClusIo bsEx).clus_sz + i)) :=
  ⟨(c5_cluster_read pEx (fioClusIo bsEx) devZero 0).1 (Or.inl (by decide)),
   (c5_cluster_read pEx (fioClusIo bsEx) devZero 2).2.1 (by decide) (by decide),
   (c5_cluster_read pEx (fioClusIo bsEx) devZero 2).2.2 (by rfl) (by decide) (by decide)⟩

/-! ## C4: FAT entry fetch addresses -/

set_option maxRecDepth 100000

/-- C4: at the failing inputs, the FAT readers fetch from the addresses
the code computes, not the ones the claim states.  FAT32, cluster 0 of
the fixture geometry: the entry is built from bytes 67584.. (sector
`fat_start + fat_sz_32`, the second FAT copy), while bytes 16384..
(sector `fat_start`) are zero — a reader of the claimed address would
classify `Unused`.  exFAT, cluster 16: the entry is built from bytes
12800.. (sector `fat_offset + 16 / 16`), while the claimed location
`fat_offset * 512 + 4 * (16 % 128) = 12352` holds zero. -/
theorem c4_fat_entry_fetch :
    (fioFat bsEx).read_one 0 devFat = FatEnt.Next 3 ∧
    devFat 16384 = 0 ∧ devFat 16385 = 0 ∧ devFat 16386 = 0 ∧ devFat 16387 = 0 ∧
    exfatReadFat pEx devEx1 16 = ExfatFatEnt.Chain 3 ∧
    devEx1 12352 = 0 ∧ devEx1 12353 = 0 ∧ devEx1 12354 = 0 ∧ devEx1 12355 = 0 := by
  refine ⟨by decide, by decide, by decide, by decide, by decide, by decide,
    by decide, by decide, by decide, by decide⟩

/-! ## C3: range reads -/

theorem clusIoRead_length (cio : ClusIo) (c : Nat) (dev : Nat → Nat) :
    (ClusIo.read cio c dev).length = cio.clus_sz := by
  simp [ClusIo.read]

theorem flatten_map_drop (f : Nat → List Nat) (cs : Nat) (hf : ∀ c, (f c).length = cs) :
    ∀ (s : Nat) (L : List Nat), ((L.drop s).map f).flatten = ((L.map f).flatten).drop (s * cs) := by
  intro s
  induction s with
  | zero => intro L; simp
  | succ s ih =>
    intro L
    cases L with
    | nil => simp
    | cons c t =>
      simp only [List.drop_succ_cons, List.map_cons, List.flatten_cons]
      rw [ih t]
      have h1 : (s + 1) * cs = (f c).length + s * cs := by rw [hf c]; ring
      rw [h1, List.drop_append]

theorem flatten_map_take (f : Nat → List Nat) (cs : Nat) (hf : ∀ c, (f c).length = cs) :
    ∀ (k : Nat) (L : List Nat), ((L.take k).map f).flatten = ((L.map f).flatten).take (k * cs) := by
  intro k
  induction k with
  | zero => intro L; simp
  | succ k ih =>
    intro L
    cases L with
    | nil => simp
    | cons c t =>
      simp only [List.take_succ_cons, List.map_cons, List.flatten_cons]
      rw [ih t]
      have h1 : (k + 1) * cs = (f c).length + k * cs := by rw [hf c]; ring
      rw [h1, List.take_append]

theorem flatten_map_length (f : Nat → List Nat) (cs : Nat) (hf : ∀ c, (f c).length = cs) :
    ∀ (L : List Nat), ((L.map f).flatten).length = L.length * cs := by
  intro L
  induction L with
  | nil => simp
  | cons c t ih =>
    simp only [List.map_cons, List.flatten_cons, List.length_append, ih, hf c, List.length_cons]
    ring

theorem slice_flatten (f : Nat → List Nat) (cs : Nat) (hf : ∀ c, (f c).length = cs)
    (chain : List Nat) (S K a sz : Nat) (hsz : a + sz ≤ K * cs) :
    ((((chain.drop S).take K).map f).flatten.drop a).take sz
      = (((chain.map f).flatten).drop (S * cs + a)).take sz := by
  rw [flatten_map_take f cs hf K (chain.drop S), flatten_map_drop f cs hf S chain]
  rw [List.drop_take]
  rw [List.take_take]
  rw [min_eq_left (by omega)]
  rw [List.drop_drop]

theorem readfile_arith (cs offset sz : Nat) (hcs : 0 < cs) (hsz : 0 < sz) :
    offset % cs + sz
      ≤ ((offset + sz - 1) / cs - offset / cs + 1) * cs := by
  have hse : offset / cs ≤ (offset + sz - 1) / cs := Nat.div_le_div_right (by omega)
  have hk : ((offset + sz - 1) / cs - offset / cs + 1) * cs
      = (offset + sz - 1) / cs * cs + 1 * cs - offset / cs * cs := by
    have h1 : (offset + sz - 1) / cs - offset / cs + 1
        = (offset + sz - 1) / cs + 1 - offset / cs := by omega
    rw [h1, Nat.sub_mul, Nat.add_mul]
  have d1 : offset / cs * cs + offset % cs = offset := Nat.div_add_mod' offset cs
  have d2 : (offset + sz - 1) / cs * cs + (offset + sz - 1) % cs = offset + sz - 1 :=
    Nat.div_add_mod' (offset + sz - 1) cs
  have m2 : (offset + sz - 1) % cs < cs := Nat.mod_lt _ hcs
  have hSE : offset / cs * cs ≤ (offset + sz - 1) / cs * cs := Nat.mul_le_mul_right cs hse
  rw [hk, Nat.one_mul]
  generalize hQ : (offset + sz - 1) / cs * cs = Q at d2 hSE
  generalize hP : offset / cs * cs = P at d1 hSE
  omega

/-- C3 counterexample: the exFAT back-end range read is a stub returning
the empty buffer, so at offset 0 below the size-10 file `fiEx` it does not
return `min(size, S − offset)` bytes. -/
theorem c3_exfat_read_counterexample :
    (exfatReadFile fiEx 0 5).length ≠ min 5 (fiEx.size - 0) := by decide

/-- C3 (amended): the FAT32 `Fio::readfile` returns exactly
`min(size, S − offset)` bytes equal to that slice of the cluster-chain
contents whenever `offset < S`, the chain covers the file and the size is
nonzero, and returns the empty buffer for `offset ≥ S` or size 0; the
exFAT back-end `read_file` always returns the empty buffer. -/
theorem c3_range_read (cio : ClusIo) (dev : Nat → Nat) (chain : List Nat) :
    (∀ fsize offset size, 0 < cio.clus_sz → fsize ≤ chain.length * cio.clus_sz →
      offset < fsize → 0 < size →
      readfile cio dev chain fsize offset size
          = ((chainContents cio dev chain).drop offset).take (min size (fsize - offset)) ∧
        (readfile cio dev chain fsize offset size).length = min size (fsize - offset)) ∧
    (∀ fsize offset size, fsize ≤ offset → readfile cio dev chain fsize offset size = []) ∧
    (∀ fsize offset, readfile cio dev chain fsize offset 0 = []) ∧
    (∀ fi offset size, exfatReadFile fi offset size = []) := by
  refine ⟨?_, ?_, ?_, ?_⟩
  · intro fsize offset size hcs hchain hoff hsz
    have hcond : ¬ (offset ≥ fsize ∨ size = 0) := by omega
    have hf : ∀ c, (ClusIo.read cio c dev).length = cio.clus_sz :=
      fun c => clusIoRead_length cio c dev
    have hszpos : 0 < min size (fsize - offset) := by omega
    have hb : readfile cio dev chain fsize offset size
        = ((((chain.drop (offset / cio.clus_sz)).take
              ((offset + min size (fsize - offset) - 1) / cio.clus_sz
                - offset / cio.clus_sz + 1)).map
              (fun c => ClusIo.read cio c dev)).flatten.drop (offset % cio.clus_sz)).take
            (min size (fsize - offset)) := by
      unfold readfile
      rw [if_neg hcond]
    have harith := readfile_arith cio.clus_sz offset (min size (fsize - offset)) hcs hszpos
    have hslice := slice_flatten (fun c => ClusIo.read cio c dev) cio.clus_sz hf chain
      (offset / cio.clus_sz)
      ((offset + min size (fsize - offset) - 1) / cio.clus_sz - offset / cio.clus_sz + 1)
      (offset % cio.clus_sz) (min size (fsize - offset)) harith
    have hdm : offset / cio.clus_sz * cio.clus_sz + offset % cio.clus_sz = offset :=
      Nat.div_add_mod' offset cio.clus_sz
    have heq : readfile cio dev chain fsize offset size
        = ((chainContents cio dev chain).drop offset).take (min size (fsize - offset)) := by
      rw [hb, hslice, hdm]
      rfl
    refine ⟨heq, ?_⟩
    rw [heq]
    have hflat : (chainContents cio dev chain).length = chain.length * cio.clus_sz := by
      unfold chainContents
      exact flatten_map_length _ cio.clus_sz hf chain
    rw [List.length_take, List.length_drop, hflat]
    generalize hR : chain.length * cio.clus_sz = R at hchain
    omega
  · intro fsize offset size h
    unfold readfile
    rw [if_pos (Or.inl h)]
  · intro fsize offset
    unfold readfile
    rw [if_pos (Or.inr rfl)]
  · intro fi offset size
    rfl

/-- C3 witness: the amended theorem at the fixture geometry, a one-cluster
chain, file size 10, offset 3, size 4, plus the empty cases and the exFAT
stub at concrete arguments. -/
theorem c3_range_read_witness :
    (readfile (fioClusIo bsEx) devZero [2] 10 3 4
        = ((chainContents (fioClusIo bsEx) devZero [2]).drop 3).take (min 4 (10 - 3)) ∧
      (readfile (fioClusIo bsEx) devZero [2] 10 3 4).length = min 4 (10 - 3)) ∧
    readfile (fioClusIo bsEx) devZero [2] 10 12 4 = [] ∧
    readfile (fioClusIo bsEx) devZero [2] 10 3 0 = [] ∧
    exfatReadFile fiEx 0 5 = [] :=
  ⟨(c3_range_read (fioClusIo bsEx) devZero [2]).1 10 3 4 (by decide) (by decide)
      (by decide) (by decide),
   (c3_range_read (fioClusIo bsEx) devZero [2]).2.1 10 12 4 (by decide),
   (c3_range_read (fioClusIo bsEx) devZero [2]).2.2.1 10 3,
   (c3_range_read (fioClusIo bsEx) devZero [2]).2.2.2 fiEx 0 5⟩

/-! ## C1: the 64-bit identity -/

theorem finfoTryFrom_id (ents : List DirEnt) (sfn : DirEntSfn) (fi : Finfo)
    (hlast : ents.getLast? = some (DirEnt.Sfn sfn)) (hfi : finfoTryFrom ents = some fi) :
    fi.id = (sfn.off <<< 32) ||| sfn.clus_no := by
  cases hb : (sfn.is_unused || sfn.is_volumeid) with
  | true => simp [finfoTryFrom, hlast, hb] at hfi
  | false =>
    cases hl : asLfns ents.dropLast with
    | none => simp [finfoTryFrom, hlast, hb, hl] at hfi
    | some lfns =>
      simp only [finfoTryFrom, hlast, hb, hl, Bool.or_eq_true, Bool.false_eq_true,
        if_false, Option.some.injEq] at hfi
      subst hfi
      rfl

theorem exfatTryFrom_id (ef : FileOrDir) (pos : Nat × Nat) (es : StreamExt)
    (rest : List EntrySet) (fi : FioFinfo)
    (hfi : exfatFinfoTryFrom
      (EntrySet.FileOrDirSet ef pos :: EntrySet.StreamExtSet es :: rest) = some fi) :
    fi.id = (pos.2 <<< 32) ||| pos.1 := by
  cases rest with
  | nil => simp [exfatFinfoTryFrom] at hfi
  | cons r rs =>
    have hlen : ¬ ((EntrySet.FileOrDirSet ef pos :: EntrySet.StreamExtSet es
        :: r :: rs).length < 3) := by
      simp only [List.length_cons]
      omega
    cases hc : exfatCollectName (r :: rs) with
    | none => simp [exfatFinfoTryFrom, hlen, hc] at hfi
    | some nm =>
      simp only [exfatFinfoTryFrom, hlen, hc, if_false, Option.some.injEq] at hfi
      subst hfi
      rfl

/-- C1 counterexample: a short-name entry decoded at cluster 2, offset 3
reduces to a file-info whose id is not `(cluster_no << 32) | offset`. -/
theorem c1_id_counterexample :
    (finfoTryFrom [DirEnt.Sfn sfnAt23]).map Finfo.id
      ≠ some ((sfnAt23.clus_no <<< 32) ||| sfnAt23.off) := by decide

/-- C1 (amended): for both reducers the id packs the primary entry
position as `(offset_in_cluster << 32) | cluster_no`; the root is keyed
by the reserved id 1 in the directory map; and since every real primary
lies in a cluster numbered at least 2, no non-root id equals 1. -/
theorem c1_identity :
    (∀ (ents : List DirEnt) (sfn : DirEntSfn) (fi : Finfo),
      ents.getLast? = some (DirEnt.Sfn sfn) → finfoTryFrom ents = some fi →
      fi.id = (sfn.off <<< 32) ||| sfn.clus_no) ∧
    (∀ (ef : FileOrDir) (pos : Nat × Nat) (es : StreamExt) (rest : List EntrySet)
      (fi : FioFinfo),
      exfatFinfoTryFrom
          (EntrySet.FileOrDirSet ef pos :: EntrySet.StreamExtSet es :: rest) = some fi →
      fi.id = (pos.2 <<< 32) ||| pos.1) ∧
    (∀ (rd : Nat → List Finfo) (rootc : Nat),
      mlookup 1 (fsInit rd rootc).dirmap = some (rd rootc)) ∧
    (∀ (ents : List DirEnt) (sfn : DirEntSfn) (fi : Finfo),
      ents.getLast? = some (DirEnt.Sfn sfn) → finfoTryFrom ents = some fi →
      2 ≤ sfn.clus_no → sfn.clus_no < pow32 → fi.id ≠ 1) ∧
    (∀ (ef : FileOrDir) (pos : Nat × Nat) (es : StreamExt) (rest : List EntrySet)
      (fi : FioFinfo),
      exfatFinfoTryFrom
          (EntrySet.FileOrDirSet ef pos :: EntrySet.StreamExtSet es :: rest) = some fi →
      2 ≤ pos.1 → pos.1 < pow32 → fi.id ≠ 1) := by
  refine ⟨finfoTryFrom_id, exfatTryFrom_id, ?_, ?_, ?_⟩
  · intro rd rootc
    rfl
  · intro ents sfn fi hlast hfi h2 hlt
    have hid := finfoTryFrom_id ents sfn fi hlast hfi
    rw [hid, lor_shiftLeft32_add _ _ hlt]
    intro hcontra
    omega
  · intro ef pos es rest fi hfi h2 hlt
    have hid := exfatTryFrom_id ef pos es rest fi hfi
    rw [hid, lor_shiftLeft32_add _ _ hlt]
    intro hcontra
    omega

/-- C1 witness: the amended theorem at the concrete FAT32 entry
`sfnAt23` and the concrete exFAT entry set at cluster 2, offset 3. -/
theorem c1_identity_witness :
    c1fi.id = (sfnAt23.off <<< 32) ||| sfnAt23.clus_no ∧
    exFi.id = ((2, 3).2 <<< 32) ||| (2, 3).1 ∧
    c1fi.id ≠ 1 ∧ exFi.id ≠ 1 :=
  ⟨c1_identity.1 [DirEnt.Sfn sfnAt23] sfnAt23 c1fi (by rfl) (by decide),
   c1_identity.2.1 exEf (2, 3) exEs [EntrySet.FileNameSet exFn] exFi (by decide),
   c1_identity.2.2.2.1 [DirEnt.Sfn sfnAt23] sfnAt23 c1fi (by rfl) (by decide)
     (by decide) (by decide),
   c1_identity.2.2.2.2 exEf (2, 3) exEs [EntrySet.FileNameSet exFn] exFi (by decide)
     (by decide) (by decide)⟩


/-! ## C6: long-name validation -/

theorem asLfns_map : ∀ lfns : List DirEntLfn, asLfns (lfns.map DirEnt.Lfn) = some lfns := by
  intro lfns
  induction lfns with
  | nil => rfl
  | cons l t ih =>
    unfold asLfns at ih ⊢
    simp only [List.map_cons, List.foldr_cons, ih]

theorem longNameOf_cons (l : DirEntLfn) (t : List DirEntLfn) :
    longNameOf (l :: t) = longNameOf t ++ l.lfnName := by
  unfold longNameOf
  simp [List.reverse_cons, List.map_append, List.flatten_append]

theorem buildName_eq (chksum : Nat) : ∀ (lfns : List DirEntLfn) (acc : List Nat),
    lfnBuildName lfns chksum acc
      = if lfns.all (fun l => l.chksum = chksum) then some (longNameOf lfns ++ acc)
        else none := by
  intro lfns
  induction lfns with
  | nil =>
    intro acc
    simp [lfnBuildName, longNameOf]
  | cons l t ih =>
    intro acc
    unfold lfnBuildName
    by_cases hc : l.chksum = chksum
    · rw [if_pos hc, ih (l.lfnName ++ acc)]
      simp [hc, longNameOf_cons, List.append_assoc]
    · rw [if_neg hc]
      simp [hc]

theorem ordFold_eq : ∀ (t : List DirEntLfn) (acc0 : Nat),
    (lfnOrdFold t acc0).isSome = ordsFrom t (acc0 - 1) := by
  intro t
  induction t with
  | nil => intro acc0; rfl
  | cons l t ih =>
    intro acc0
    unfold lfnOrdFold ordsFrom
    by_cases h : acc0 - 1 = l.ordno
    · rw [if_pos h, ih (acc0 - 1)]
      simp [show l.ordno = acc0 - 1 from h.symm]
    · rw [if_neg h]
      have h2 : ¬ (l.ordno = acc0 - 1) := fun hh => h hh.symm
      simp [h2]

theorem ordFold_descending (lfns : List DirEntLfn) :
    (lfnOrdFold lfns (lfns.length + 1)).isSome = ordsDescending lfns := by
  rw [ordFold_eq lfns (lfns.length + 1)]
  unfold ordsDescending
  simp

theorem checkBlock_eq (lfns : List DirEntLfn) (chksum : Nat) (hne : lfns ≠ []) :
    lfnCheckBlock lfns chksum
      = if ((match lfns.head? with
              | some f => f.is_last
              | none => false)
            && lfns.all (fun l => l.chksum = chksum)
            && ordsDescending lfns) then some (longNameOf lfns) else none := by
  cases lfns with
  | nil => exact absurd rfl hne
  | cons l t =>
    unfold lfnCheckBlock
    simp only [List.head?_cons]
    by_cases hl : l.is_last
    · rw [if_neg (by simp [hl])]
      rw [buildName_eq chksum (l :: t) []]
      by_cases hc : (l :: t).all (fun x => x.chksum = chksum)
      · rw [if_pos hc]
        rw [show (lfnOrdFold (l :: t) ((l :: t).length + 1)).isSome
            = ordsDescending (l :: t) from ordFold_descending (l :: t)]
        by_cases ho : ordsDescending (l :: t)
        · simp [hl, hc, ho]
        · simp [hl, hc, ho]
      · rw [if_neg hc]
        simp [hc]
    · rw [if_pos (by simp [hl])]
      simp [hl]

/-- C6: reducing a group of LFN fragments followed by a live short-name
entry yields the long name (fragment texts concatenated in reverse disk
order) exactly when the four checks pass — count in 1..=20, the first
on-disk fragment carries the 0x40 flag, every fragment checksum equals
the short-name checksum, ordinals descend strictly from count to 1 — and
yields the 8.3-derived name otherwise; either way the record is produced,
so a failed check never aborts the surrounding listing. -/
theorem c6_lfn_validation (lfns : List DirEntLfn) (sfn : DirEntSfn)
    (hu : sfn.is_unused = false) (hv : sfn.is_volumeid = false) :
    (finfoTryFrom (lfns.map DirEnt.Lfn ++ [DirEnt.Sfn sfn])).map Finfo.name
      = some (if lfnChecksPass lfns sfn then longNameOf lfns else sfn.sfnName) := by
  have hlast : (lfns.map DirEnt.Lfn ++ [DirEnt.Sfn sfn]).getLast? = some (DirEnt.Sfn sfn) :=
    List.getLast?_concat _
  have hdrop : (lfns.map DirEnt.Lfn ++ [DirEnt.Sfn sfn]).dropLast = lfns.map DirEnt.Lfn := by
    simp [List.dropLast_concat]
  simp only [finfoTryFrom, hlast, hu, hv, Bool.or_self, Bool.false_eq_true, if_false,
    hdrop, asLfns_map lfns, Option.map_some']
  cases hemp : lfns with
  | nil =>
    simp [lfnChecksPass]
  | cons l t =>
    by_cases h20 : (l :: t).length ≤ 20
    · have h20t : t.length ≤ 19 := by
        simp only [List.length_cons] at h20
        omega
      rw [if_pos ⟨by simp, h20⟩]
      rw [checkBlock_eq (l :: t) sfn.create_chksum (by simp)]
      simp only [List.head?_cons]
      by_cases hflag : l.is_last
      · by_cases hc : (l :: t).all (fun x => x.chksum = sfn.create_chksum)
        · by_cases ho : ordsDescending (l :: t)
          · simp [lfnChecksPass, hflag, hc, ho, h20t]
          · simp [lfnChecksPass, hflag, hc, ho, h20t]
        · simp [lfnChecksPass, hflag, hc, h20t]
      · simp [lfnChecksPass, hflag, h20t]
    · have h20t : 19 < t.length := by
        simp only [List.length_cons] at h20
        omega
      rw [if_neg (fun hcond => h20 hcond.2)]
      have hfalse : lfnChecksPass (l :: t) sfn = false := by
        simp [lfnChecksPass]
        omega
      simp [hfalse]

/-- C6 witness: the concrete fragment `lfnEx` with matching checksum in
front of `sfnEx` passes the checks, and the produced name is the
fragment text `Readme.md`. -/
theorem c6_lfn_validation_witness :
    (finfoTryFrom ([lfnEx].map DirEnt.Lfn ++ [DirEnt.Sfn sfnEx])).map Finfo.name
      = some (if lfnChecksPass [lfnEx] sfnEx then longNameOf [lfnEx] else sfnEx.sfnName) :=
  c6_lfn_validation [lfnEx] sfnEx (by decide) (by decide)

/-! ## C2: listing termination -/

/-- C2: the first end-of-directory sentinel does not terminate the FAT32
walk globally — a chain whose first cluster is all sentinel records and
whose second cluster holds a live short-name record still lists one file
(the claim requires zero); and on exFAT the entry set sitting before the
terminator is well formed yet `list_dir` drops it, returning an empty
listing instead of one record. -/
theorem c2_terminator_scope :
    (readDirentsChain exClusRead [2, 3]).length = 1 ∧
    (exfatReadDirents exfatClusBytes [9]).map List.length = some 3 ∧
    (exfatFinfoTryFrom
      (((exfatReadDirents exfatClusBytes [9]).getD []).filterMap entrySetOf)).isSome = true ∧
    exfatListDir exfatClusBytes [9] = some [] := by
  refine ⟨by decide, by decide, by decide, by decide⟩

/-! ## Map lemmas for the cache -/

theorem mlookup_minsert {α : Type} (k : Nat) (v : α) (m : List (Nat × α)) :
    mlookup k (minsert k v m) = some v := by
  simp [mlookup, minsert]

theorem mlookup_minsert_ne {α : Type} (k k2 : Nat) (v : α) (m : List (Nat × α))
    (h : k2 ≠ k) : mlookup k2 (minsert k v m) = mlookup k2 m := by
  simp [mlookup, minsert, h]

theorem isSome_mlookup_minsert {α : Type} (k k2 : Nat) (v : α) (m : List (Nat × α))
    (h : (mlookup k2 m).isSome) : (mlookup k2 (minsert k v m)).isSome := by
  by_cases hk : k2 = k
  · subst hk
    rw [mlookup_minsert]
    rfl
  · rw [mlookup_minsert_ne k k2 v m hk]
    exact h

theorem mlookup_insertAll_not_mem : ∀ (l : List Finfo) (m : List (Nat × Finfo)) (x : Nat),
    (∀ f ∈ l, f.id ≠ x) → mlookup x (insertAll l m) = mlookup x m := by
  intro l
  induction l with
  | nil => intro m x _; rfl
  | cons g t ih =>
    intro m x hx
    unfold insertAll at ih ⊢
    rw [List.foldl_cons]
    rw [ih (minsert g.id g m) x (fun f hf => hx f (List.mem_cons_of_mem g hf))]
    exact mlookup_minsert_ne g.id x g m (fun he => hx g (List.mem_cons_self g t) he.symm)

theorem mlookup_insertAll_mem : ∀ (l : List Finfo) (m : List (Nat × Finfo)) (f : Finfo),
    (l.map Finfo.id).Nodup → f ∈ l → mlookup f.id (insertAll l m) = some f := by
  intro l
  induction l with
  | nil => intro m f _ hf; cases hf
  | cons g t ih =>
    intro m f hnd hf
    have hnd2 := hnd
    rw [List.map_cons, List.nodup_cons] at hnd2
    unfold insertAll
    rw [List.foldl_cons]
    cases List.mem_cons.mp hf with
    | inl heq =>
      subst heq
      rw [show (t.foldl (fun m f => minsert f.id f m) (minsert f.id f m)) = insertAll t (minsert f.id f m) from rfl]
      rw [mlookup_insertAll_not_mem t (minsert f.id f m) f.id
        (fun g hg he => hnd2.1 (he ▸ List.mem_map_of_mem Finfo.id hg))]
      exact mlookup_minsert f.id f m
    | inr hmem =>
      exact ih (minsert g.id g m) f hnd2.2 hmem

theorem isSome_mlookup_insertAll : ∀ (l : List Finfo) (m : List (Nat × Finfo)) (x : Nat),
    (mlookup x m).isSome → (mlookup x (insertAll l m)).isSome := by
  intro l
  induction l with
  | nil => intro m x h; exact h
  | cons g t ih =>
    intro m x h
    unfold insertAll
    rw [List.foldl_cons]
    exact ih (minsert g.id g m) x (isSome_mlookup_minsert g.id x g m h)

/-! ## C7: cache invariants -/

theorem listingOf_nodup (rd : Nat → List Finfo) (H1 : ∀ c, ((rd c).map Finfo.id).Nodup)
    (c : Nat) : ((listingOf rd c).map Finfo.id).Nodup := by
  unfold listingOf
  by_cases hc : c = 0
  · simp [hc]
  · simp only [hc, if_neg, if_false]
    exact H1 c

theorem listingOf_disjoint (rd : Nat → List Finfo)
    (H2 : ∀ c cc, c ≠ cc → ∀ f ∈ rd c, ∀ g ∈ rd cc, f.id ≠ g.id)
    (c cc : Nat) (hne : c ≠ cc) (f : Finfo) (hf : f ∈ listingOf rd c)
    (g : Finfo) (hg : g ∈ listingOf rd cc) : f.id ≠ g.id := by
  unfold listingOf at hf hg
  by_cases hc : c = 0
  · simp [hc] at hf
  · by_cases hcc : cc = 0
    · simp [hcc] at hg
    · simp only [hc, hcc, if_false] at hf hg
      exact H2 c cc hne f hf g hg

theorem fsInit_inv (rd : Nat → List Finfo) (rootc : Nat) (Hz : rd 0 = [])
    (H1 : ∀ c, ((rd c).map Finfo.id).Nodup) : FsInv rd (fsInit rd rootc) := by
  refine ⟨?_, ?_, ?_⟩
  · intro id hs
    by_cases h1 : id = 1
    · exact Or.inl h1
    · simp [fsInit, minsert, mlookup, h1] at hs
  · intro id l hl
    by_cases h1 : id = 1
    · subst h1
      rw [show (fsInit rd rootc).dirmap = minsert 1 (rd rootc) [] from rfl,
        mlookup_minsert] at hl
      have hleq : l = rd rootc := (Option.some.inj hl).symm
      subst hleq
      refine ⟨rootc, ?_⟩
      unfold listingOf
      by_cases hr : rootc = 0
      · simp [hr, Hz]
      · simp [hr]
    · simp [fsInit, minsert, mlookup, h1] at hl
  · intro id l hl f hf
    by_cases h1 : id = 1
    · subst h1
      rw [show (fsInit rd rootc).dirmap = minsert 1 (rd rootc) [] from rfl,
        mlookup_minsert] at hl
      have hleq : l = rd rootc := (Option.some.inj hl).symm
      subst hleq
      exact mlookup_insertAll_mem (rd rootc) [] f (H1 rootc) hf
    · simp [fsInit, minsert, mlookup, h1] at hl

theorem fsReaddir_inv (rd : Nat → List Finfo) (s s2 : FsState) (id : Nat)
    (H1 : ∀ c, ((rd c).map Finfo.id).Nodup)
    (H2 : ∀ c cc, c ≠ cc → ∀ f ∈ rd c, ∀ g ∈ rd cc, f.id ≠ g.id)
    (hinv : FsInv rd s) (h : fsReaddir rd id s = some s2) : FsInv rd s2 := by
  cases hd : mlookup id s.dirmap with
  | some l =>
    simp only [fsReaddir, hd, Option.some.injEq] at h
    subst h
    exact hinv
  | none =>
    cases hfm : mlookup id s.fmap with
    | none => simp [fsReaddir, hd, hfm] at h
    | some di =>
      simp only [fsReaddir, hd, hfm, Option.some.injEq] at h
      subst h
      have hfiles : (if di.fst_clus ≠ 0 then rd di.fst_clus else [])
          = listingOf rd di.fst_clus := by
        unfold listingOf
        by_cases hc : di.fst_clus = 0 <;> simp [hc]
      rw [hfiles]
      refine ⟨?_, ?_, ?_⟩
      · intro id2 hs2
        by_cases he : id2 = id
        · subst he
          right
          exact isSome_mlookup_insertAll _ _ _ (by rw [hfm]; rfl)
        · simp only at hs2
          rw [mlookup_minsert_ne id id2 _ s.dirmap he] at hs2
          cases hinv.1 id2 hs2 with
          | inl h1 => exact Or.inl h1
          | inr h2 =>
            right
            exact isSome_mlookup_insertAll _ _ _ h2
      · intro id2 l hl
        by_cases he : id2 = id
        · subst he
          rw [mlookup_minsert] at hl
          exact ⟨di.fst_clus, (Option.some.inj hl).symm⟩
        · rw [mlookup_minsert_ne id id2 _ s.dirmap he] at hl
          exact hinv.2.1 id2 l hl
      · intro id2 l hl f hf
        by_cases he : id2 = id
        · subst he
          rw [mlookup_minsert] at hl
          have hleq := Option.some.inj hl
          subst hleq
          exact mlookup_insertAll_mem _ _ f (listingOf_nodup rd H1 di.fst_clus) hf
        · rw [mlookup_minsert_ne id id2 _ s.dirmap he] at hl
          obtain ⟨c, hc⟩ := hinv.2.1 id2 l hl
          have hfm2 := hinv.2.2 id2 l hl f hf
          by_cases hcc : c = di.fst_clus
          · subst hcc
            subst hc
            exact mlookup_insertAll_mem _ _ f (listingOf_nodup rd H1 di.fst_clus) hf
          · rw [mlookup_insertAll_not_mem _ _ f.id ?hdisj]
            · exact hfm2
            · intro g hg
              subst hc
              exact (listingOf_disjoint rd H2 di.fst_clus c
                (fun he2 => hcc he2.symm) g hg f hf)

theorem fsStep_inv (rd : Nat → List Finfo) (s s2 : FsState) (op : FsOp)
    (H1 : ∀ c, ((rd c).map Finfo.id).Nodup)
    (H2 : ∀ c cc, c ≠ cc → ∀ f ∈ rd c, ∀ g ∈ rd cc, f.id ≠ g.id)
    (hinv : FsInv rd s) (h : fsStep rd s op = some s2) : FsInv rd s2 := by
  cases op with
  | readdirOp id => exact fsReaddir_inv rd s s2 id H1 H2 hinv h
  | lookupOp parent nm =>
    simp only [fsStep, fsLookup] at h
    cases hr : fsReaddir rd parent s with
    | none => rw [hr] at h; cases h
    | some s3 =>
      rw [hr] at h
      simp only [Option.map_some', Option.some.injEq] at h
      subst h
      exact fsReaddir_inv rd s s3 parent H1 H2 hinv hr
  | getinfoOp id =>
    cases h
    exact hinv
  | openOp id =>
    simp only [fsStep, Option.some.injEq] at h
    subst h
    unfold fsOpen
    cases fsGetinfo id s <;> exact hinv
  | closeOp id =>
    simp only [fsStep, Option.some.injEq] at h
    subst h
    unfold fsClose
    cases mlookup id s.filesopen <;> exact hinv
  | readOp id off sz =>
    cases h
    exact hinv

theorem foldl_none_of {α β : Type} (f : Option α → β → Option α)
    (hf : ∀ b, f none b = none) : ∀ t : List β, t.foldl f none = none := by
  intro t
  induction t with
  | nil => rfl
  | cons b t ih => rw [List.foldl_cons, hf b, ih]

theorem fsRun_inv_aux (rd : Nat → List Finfo)
    (H1 : ∀ c, ((rd c).map Finfo.id).Nodup)
    (H2 : ∀ c cc, c ≠ cc → ∀ f ∈ rd c, ∀ g ∈ rd cc, f.id ≠ g.id) :
    ∀ (ops : List FsOp) (s0 s : FsState), FsInv rd s0 →
      ops.foldl (fun acc op => acc.bind (fun t => fsStep rd t op)) (some s0) = some s →
      FsInv rd s := by
  intro ops
  induction ops with
  | nil =>
    intro s0 s h0 hrun
    cases hrun
    exact h0
  | cons op t ih =>
    intro s0 s h0 hrun
    rw [List.foldl_cons] at hrun
    cases hstep : fsStep rd s0 op with
    | none =>
      rw [show (some s0).bind (fun t => fsStep rd t op) = none by simp [hstep]] at hrun
      rw [foldl_none_of _ (fun b => rfl) t] at hrun
      cases hrun
    | some s1 =>
      rw [show (some s0).bind (fun t => fsStep rd t op) = some s1 by simp [hstep]] at hrun
      exact ih s1 s (fsStep_inv rd s0 s1 op H1 H2 h0 hstep) hrun

/-- C7: after any sequence of operations on a freshly constructed cache
over a directory reader with duplicate-free listings whose distinct heads
never share ids, every key of the directory map is the root id 1 or a key
of the file-info map, and every member of a listing returned by `readdir`
is what `getinfo` returns for its id. -/
theorem c7_cache_invariants (rd : Nat → List Finfo) (rootc : Nat) (ops : List FsOp)
    (s : FsState) (Hz : rd 0 = [])
    (H1 : ∀ c, ((rd c).map Finfo.id).Nodup)
    (H2 : ∀ c cc, c ≠ cc → ∀ f ∈ rd c, ∀ g ∈ rd cc, f.id ≠ g.id)
    (hrun : fsRun rd rootc ops = some s) :
    (∀ id, (mlookup id s.dirmap).isSome → id = 1 ∨ (mlookup id s.fmap).isSome) ∧
    (∀ parent l, fsReaddirList parent s = some l → ∀ f ∈ l, fsGetinfo f.id s = some f) := by
  have hinv : FsInv rd s :=
    fsRun_inv_aux rd H1 H2 ops (fsInit rd rootc) s (fsInit_inv rd rootc Hz H1) hrun
  exact ⟨hinv.1, fun parent l hl f hf => hinv.2.2 parent l hl f hf⟩

/-- C7 witness: the invariants at the fixture reader `rdEx` after
expanding the root and the directory `fA`. -/
theorem c7_cache_invariants_witness :
    ∃ s, fsRun rdEx 7 [FsOp.readdirOp 1, FsOp.readdirOp 9] = some s ∧
      ((∀ id, (mlookup id s.dirmap).isSome → id = 1 ∨ (mlookup id s.fmap).isSome) ∧
        (∀ parent l, fsReaddirList parent s = some l →
          ∀ f ∈ l, fsGetinfo f.id s = some f)) := by
  refine ⟨(fsRun rdEx 7 [FsOp.readdirOp 1, FsOp.readdirOp 9]).get (by decide), ?_, ?_⟩
  · simp
  · refine c7_cache_invariants rdEx 7 [FsOp.readdirOp 1, FsOp.readdirOp 9] _ (by rfl)
      ?_ ?_ (by simp)
    · intro c
      unfold rdEx
      by_cases hc : c = 7 <;> simp [hc]
    · intro c cc hne f hf g hg
      unfold rdEx at hf hg
      by_cases hc : c = 7
      · by_cases hcc : cc = 7
        · exact absurd (hc.trans hcc.symm) hne
        · simp [hcc] at hg
      · simp [hc] at hf

/-! ## C10: the reserved root id -/

theorem DirEntNew_sfn (buf : List Nat) (c off : Nat) (en : DirEntSfn)
    (h : DirEnt.new buf c off = DirEnt.Sfn en) : en.clus_no = c := by
  unfold DirEnt.new at h
  by_cases hattr : byteAt buf 11 = ATTR_LONG_FILE_NAME
  · rw [if_pos hattr] at h
    simp at h
  · rw [if_neg hattr] at h
    injection h with h2
    subst h2
    rfl

theorem processChunks_ids : ∀ (chunks : List (List Nat)) (c off : Nat)
    (res : List Finfo) (ents : List DirEnt),
    2 ≤ c → c < pow32 → (∀ f ∈ res, f.id ≠ 1) →
    ∀ f ∈ (processChunks chunks c off res ents).1, f.id ≠ 1 := by
  intro chunks
  induction chunks with
  | nil =>
    intro c off res ents _ _ hres f hf
    exact hres f hf
  | cons buf rest ih =>
    intro c off res ents h2 hlt hres f hf
    cases hde : DirEnt.new buf c off with
    | Lfn l =>
      simp only [processChunks, hde] at hf
      exact ih c (off + 1) res (ents ++ [DirEnt.Lfn l]) h2 hlt hres f hf
    | Sfn en =>
      cases hend : en.is_end with
      | true =>
        simp only [processChunks, hde, hend, if_true] at hf
        exact hres f hf
      | false =>
        simp only [processChunks, hde, hend, Bool.false_eq_true, if_false] at hf
        refine ih c (off + 1) _ [] h2 hlt ?_ f hf
        intro g hg
        cases htf : finfoTryFrom (ents ++ [DirEnt.Sfn en]) with
        | none =>
          rw [htf] at hg
          exact hres g hg
        | some f2 =>
          rw [htf] at hg
          cases List.mem_append.mp hg with
          | inl hmem => exact hres g hmem
          | inr hmem =>
            have hg2 : g = f2 := by simpa using hmem
            subst hg2
            have hid := finfoTryFrom_id (ents ++ [DirEnt.Sfn en]) en g
              (List.getLast?_concat _) htf
            have hcl : en.clus_no = c := DirEntNew_sfn buf c off en hde
            rw [hid, hcl, lor_shiftLeft32_add _ _ hlt]
            intro hcontra
            omega

theorem readDirentsChain_aux : ∀ (chain : List Nat) (clusRead : Nat → List Nat)
    (st : List Finfo × List DirEnt),
    (∀ c ∈ chain, 2 ≤ c ∧ c < pow32) → (∀ f ∈ st.1, f.id ≠ 1) →
    ∀ f ∈ (chain.foldl
        (fun st c => processChunks (chunks32 (clusRead c)) c 0 st.1 st.2) st).1,
      f.id ≠ 1 := by
  intro chain
  induction chain with
  | nil =>
    intro clusRead st _ hst f hf
    exact hst f hf
  | cons c t ih =>
    intro clusRead st hc hst f hf
    rw [List.foldl_cons] at hf
    refine ih clusRead _ (fun c2 h2 => hc c2 (List.mem_cons_of_mem c h2)) ?_ f hf
    exact processChunks_ids (chunks32 (clusRead c)) c 0 st.1 st.2
      (hc c (List.mem_cons_self c t)).1 (hc c (List.mem_cons_self c t)).2 hst

theorem fatEntNew_next_bounds (b0 b1 b2 b3 n : Nat) (h0 : b0 < 256) (h1 : b1 < 256)
    (h2 : b2 < 256) (h : FatEnt.new b0 b1 b2 b3 = FatEnt.Next n) : 2 ≤ n ∧ n < pow32 := by
  unfold FatEnt.new at h
  split at h
  · simp at h
  · split at h
    · simp at h
    · split at h
      · simp at h
      · split at h
        · simp at h
        · injection h with hn
          subst hn
          unfold le32 pow32
          rename_i hc1 hc2 hc3 hc4
          have hb3 : b3 % 16 < 16 := by omega
          omega

theorem fsStep_root (rd : Nat → List Finfo) (s s2 : FsState) (op : FsOp)
    (Hid : ∀ c, ∀ f ∈ rd c, f.id ≠ 1)
    (hdm : (mlookup 1 s.dirmap).isSome) (hfm : mlookup 1 s.fmap = none)
    (h : fsStep rd s op = some s2) :
    (mlookup 1 s2.dirmap).isSome ∧ mlookup 1 s2.fmap = none := by
  have core : ∀ id, fsReaddir rd id s = some s2 →
      (mlookup 1 s2.dirmap).isSome ∧ mlookup 1 s2.fmap = none := by
    intro id hr
    cases hd : mlookup id s.dirmap with
    | some l =>
      simp only [fsReaddir, hd, Option.some.injEq] at hr
      subst hr
      exact ⟨hdm, hfm⟩
    | none =>
      cases hfmd : mlookup id s.fmap with
      | none => simp [fsReaddir, hd, hfmd] at hr
      | some di =>
        simp only [fsReaddir, hd, hfmd, Option.some.injEq] at hr
        subst hr
        constructor
        · exact isSome_mlookup_minsert id 1 _ s.dirmap hdm
        · rw [mlookup_insertAll_not_mem _ _ 1 ?hni]
          · exact hfm
          · intro g hg
            by_cases hz : di.fst_clus ≠ 0
            · rw [if_pos hz] at hg
              exact Hid di.fst_clus g hg
            · rw [if_neg hz] at hg
              cases hg
  cases op with
  | readdirOp id => exact core id h
  | lookupOp parent nm =>
    simp only [fsStep, fsLookup] at h
    cases hr : fsReaddir rd parent s with
    | none => rw [hr] at h; cases h
    | some s3 =>
      rw [hr] at h
      simp only [Option.map_some', Option.some.injEq] at h
      subst h
      exact core parent hr
  | getinfoOp id =>
    cases h
    exact ⟨hdm, hfm⟩
  | openOp id =>
    simp only [fsStep, Option.some.injEq] at h
    subst h
    unfold fsOpen
    cases fsGetinfo id s <;> exact ⟨hdm, hfm⟩
  | closeOp id =>
    simp only [fsStep, Option.some.injEq] at h
    subst h
    unfold fsClose
    cases mlookup id s.filesopen <;> exact ⟨hdm, hfm⟩
  | readOp id off sz =>
    cases h
    exact ⟨hdm, hfm⟩

theorem fsRun_root_aux (rd : Nat → List Finfo) (Hid : ∀ c, ∀ f ∈ rd c, f.id ≠ 1) :
    ∀ (ops : List FsOp) (s0 s : FsState),
      (mlookup 1 s0.dirmap).isSome → mlookup 1 s0.fmap = none →
      ops.foldl (fun acc op => acc.bind (fun t => fsStep rd t op)) (some s0) = some s →
      (mlookup 1 s.dirmap).isSome ∧ mlookup 1 s.fmap = none := by
  intro ops
  induction ops with
  | nil =>
    intro s0 s h1 h2 hrun
    cases hrun
    exact ⟨h1, h2⟩
  | cons op t ih =>
    intro s0 s h1 h2 hrun
    rw [List.foldl_cons] at hrun
    cases hstep : fsStep rd s0 op with
    | none =>
      rw [show (some s0).bind (fun t => fsStep rd t op) = none by simp [hstep]] at hrun
      rw [foldl_none_of _ (fun b => rfl) t] at hrun
      cases hrun
    | some s1 =>
      rw [show (some s0).bind (fun t => fsStep rd t op) = some s1 by simp [hstep]] at hrun
      obtain ⟨g1, g2⟩ := fsStep_root rd s0 s1 op Hid h1 h2 hstep
      exact ih s1 s g1 g2 hrun

/-- C10: the root id 1 keys the directory map and never the file-info
map after any operation sequence, so `getinfo(1)` is `None`, `open(1)`
fails and `readdir(1)`/`lookup(1, _)` succeed; and no FAT32 listing can
insert id 1, because every entry of a walked chain lies in a cluster
numbered at least 2, as every `Next` FAT entry is. -/
theorem c10_root_id (rd : Nat → List Finfo) (rootc : Nat) (ops : List FsOp) (s : FsState)
    (Hid : ∀ c, ∀ f ∈ rd c, f.id ≠ 1)
    (hrun : fsRun rd rootc ops = some s) :
    ((mlookup 1 s.dirmap).isSome ∧ mlookup 1 s.fmap = none ∧
      fsGetinfo 1 s = none ∧ (fsOpen 1 s).2 = false ∧
      fsReaddir rd 1 s = some s ∧ (∀ nm, (fsLookup rd 1 nm s).isSome)) ∧
    (∀ (clusRead : Nat → List Nat) (chain : List Nat),
      (∀ c ∈ chain, 2 ≤ c ∧ c < pow32) →
      ∀ f ∈ readDirentsChain clusRead chain, f.id ≠ 1) ∧
    (∀ b0 b1 b2 b3 n, b0 < 256 → b1 < 256 → b2 < 256 →
      FatEnt.new b0 b1 b2 b3 = FatEnt.Next n → 2 ≤ n ∧ n < pow32) := by
  have hinit1 : (mlookup 1 (fsInit rd rootc).dirmap).isSome := by
    rw [show (fsInit rd rootc).dirmap = minsert 1 (rd rootc) [] from rfl, mlookup_minsert]
    rfl
  have hinit2 : mlookup 1 (fsInit rd rootc).fmap = none := by
    rw [show (fsInit rd rootc).fmap = insertAll (rd rootc) [] from rfl,
      mlookup_insertAll_not_mem _ _ 1 (Hid rootc)]
    rfl
  obtain ⟨g1, g2⟩ := fsRun_root_aux rd Hid ops (fsInit rd rootc) s hinit1 hinit2 hrun
  have hreaddir : fsReaddir rd 1 s = some s := by
    obtain ⟨l, hl⟩ := Option.isSome_iff_exists.mp g1
    simp [fsReaddir, hl]
  refine ⟨⟨g1, g2, g2, ?_, hreaddir, ?_⟩, ?_, fatEntNew_next_bounds⟩
  · unfold fsOpen
    rw [show fsGetinfo 1 s = none from g2]
  · intro nm
    unfold fsLookup
    rw [hreaddir]
    rfl
  · intro clusRead chain hc f hf
    exact readDirentsChain_aux chain clusRead ([], []) hc (fun g hg => absurd hg
      (List.not_mem_nil g)) f hf

theorem rdEx_id_ne_one : ∀ c, ∀ f ∈ rdEx c, f.id ≠ 1 := by
  intro c f hf
  unfold rdEx at hf
  by_cases hc : c = 7
  · simp [hc] at hf
    subst hf
    decide
  · simp [hc] at hf

/-- C10 witness: the fixture reader after expanding the root: id 1 keys
only the directory map, `getinfo`/`open` fail on it, `readdir`/`lookup`
succeed, and the concrete two-cluster FAT32 listing of `exClusRead`
contains no id 1. -/
theorem c10_root_id_witness :
    ∃ s, fsRun rdEx 7 [FsOp.readdirOp 1] = some s ∧
      ((mlookup 1 s.dirmap).isSome ∧ mlookup 1 s.fmap = none ∧
        fsGetinfo 1 s = none ∧ (fsOpen 1 s).2 = false ∧
        fsReaddir rdEx 1 s = some s ∧ (∀ nm, (fsLookup rdEx 1 nm s).isSome)) ∧
      (∀ f ∈ readDirentsChain exClusRead [2, 3], f.id ≠ 1) := by
  have hs : fsRun rdEx 7 [FsOp.readdirOp 1]
      = some ((fsRun rdEx 7 [FsOp.readdirOp 1]).get (by decide)) := by simp
  refine ⟨_, hs, ?_, ?_⟩
  · exact (c10_root_id rdEx 7 [FsOp.readdirOp 1] _ rdEx_id_ne_one hs).1
  · intro f hf
    exact (c10_root_id rdEx 7 [FsOp.readdirOp 1] _ rdEx_id_ne_one hs).2.1
      exClusRead [2, 3] (by decide) f hf
